import Mathlib

/-!
# Reactive query subscriptions: fanout, registry and execution cursor

A shallow embedding of `pkg/sql/event_emitter.go`, `pkg/sql/subscription_manager.go`
and `pkg/sql/subscribe.go`, followed by the properties established about them.

Conventions of the embedding.

* Go channels are references. A channel is represented by a handle (a natural number)
  into a heap `chans` that holds, for each handle, the buffered events, the capacity
  and the closed flag. `make(chan ...)` allocates the next unused handle.
* A Go panic (send on a closed channel, close of a closed channel) is the `.error`
  result of `Except String`.
* The `sync.RWMutex` of each structure serialises its methods, so each method is a
  function from the state before the call to the state after it.
* Logging calls (`log.VEventf`, `fmt.Printf`) have no effect on the state and are omitted.
-/

namespace Reactive

/-! ## event_emitter.go -/

/-- TableChangeEvent represents a change to a table. `PrimaryKey` is a Go
`map[string]string`: `none` is the nil map, `some kvs` lists its entries. -/
structure TableChangeEvent where
  TableName : String
  Operation : String
  PrimaryKey : Option (List (String × String))
deriving DecidableEq, Repr

/-- State of one `chan TableChangeEvent`: the events buffered in it (oldest first),
its capacity, and whether `close` has been called on it. -/
structure Chan where
  buf : List TableChangeEvent
  cap : Nat
  closed : Bool
deriving DecidableEq, Repr

/-- Buffer size given to `make` in `EventEmitter.Subscribe` ("1 million buffer"). -/
def chanBufferSize : Nat := 1000000

/-- Result of `make(chan TableChangeEvent, n)`. -/
def makeChan (n : Nat) : Chan := { buf := [], cap := n, closed := false }

/-- Builtin `close(ch)`: closing an already closed channel panics. -/
def closeChan (c : Chan) : Except String Chan :=
  if c.closed then .error "close of closed channel" else .ok { c with closed := true }

/-- One `select { case ch <- event: ... default: ... }`: a send on a closed channel
panics; otherwise the event is appended when the buffer has room, and the `default`
branch leaves the channel as it is when the buffer is full. -/
def trySend (c : Chan) (event : TableChangeEvent) : Except String Chan :=
  if c.closed then .error "send on closed channel"
  else if c.buf.length < c.cap then .ok { c with buf := c.buf ++ [event] }
  else .ok c

/-- Zero value of `TableChangeEvent`, which a receive on a closed, drained channel yields. -/
def zeroEvent : TableChangeEvent := { TableName := "", Operation := "", PrimaryKey := none }

/-- Receive `<-ch`: the oldest buffered event if there is one; the zero value when the
channel is closed and drained; `none` when the receive would block. -/
def Chan.recv (c : Chan) : Option (TableChangeEvent × Chan) :=
  match c.buf with
  | ev :: rest => some (ev, { c with buf := rest })
  | [] => if c.closed then some (zeroEvent, c) else none

/-- EventEmitter manages listeners for table changes. `listeners` is the Go map
`tableName -> channels` (a missing key reads as the nil slice); `chans` and `nextChan`
are the heap of channels and the next handle `make` will return. -/
structure EventEmitter where
  listeners : String → List Nat
  chans : Nat → Chan
  nextChan : Nat

/-- NewEventEmitter creates a new event emitter. -/
def NewEventEmitter : EventEmitter :=
  { listeners := fun _ => [], chans := fun _ => makeChan 0, nextChan := 0 }

/-- Subscribe adds a listener for a specific table; returns the new channel. -/
def EventEmitter.Subscribe (e : EventEmitter) (tableName : String) : Nat × EventEmitter :=
  let ch := e.nextChan
  (ch, { listeners := Function.update e.listeners tableName (e.listeners tableName ++ [ch]),
         chans := Function.update e.chans ch (makeChan chanBufferSize),
         nextChan := e.nextChan + 1 })

/-- Loop of `Unsubscribe`: `rest` is the part of `listeners` still to visit and `i` the
index of its head. At the first listener equal to `ch` the slice is replaced by
`append(listeners[:i], listeners[i+1:]...)`, the channel is closed, and the loop breaks. -/
def unsubscribeLoop (e : EventEmitter) (tableName : String) (ch : Nat) (listeners : List Nat) :
    Nat → List Nat → Except String EventEmitter
  | _, [] => .ok e
  | i, listener :: rest =>
    if listener = ch then
      match closeChan (e.chans ch) with
      | .error msg => .error msg
      | .ok c =>
        .ok { e with
              listeners := Function.update e.listeners tableName
                (listeners.take i ++ listeners.drop (i + 1)),
              chans := Function.update e.chans ch c }
    else unsubscribeLoop e tableName ch listeners (i + 1) rest

/-- Unsubscribe removes a listener. -/
def EventEmitter.Unsubscribe (e : EventEmitter) (tableName : String) (ch : Nat) :
    Except String EventEmitter :=
  let listeners := e.listeners tableName
  unsubscribeLoop e tableName ch listeners 0 listeners

/-- Loop of `Emit` over the listeners of the table: a non-blocking send to each. -/
def emitLoop (event : TableChangeEvent) : List Nat → (Nat → Chan) → Except String (Nat → Chan)
  | [], chans => .ok chans
  | ch :: rest, chans =>
    match trySend (chans ch) event with
    | .error msg => .error msg
    | .ok c => emitLoop event rest (Function.update chans ch c)

/-- Emit sends an event to all listeners of a table. -/
def EventEmitter.Emit (e : EventEmitter) (tableName operation : String)
    (primaryKey : Option (List (String × String))) : Except String EventEmitter :=
  let event : TableChangeEvent :=
    { TableName := tableName, Operation := operation, PrimaryKey := primaryKey }
  let listeners := e.listeners tableName
  if listeners.length = 0 then .ok e
  else
    match emitLoop event listeners e.chans with
    | .error msg => .error msg
    | .ok chans => .ok { e with chans := chans }

/-- Calls a client of the emitter can make: the three methods, and a receive on a
channel handle it holds. -/
inductive EmitterOp where
  | subscribe (tableName : String)
  | unsubscribe (tableName : String) (ch : Nat)
  | emit (tableName operation : String) (primaryKey : Option (List (String × String)))
  | receive (ch : Nat)
deriving DecidableEq, Repr

/-- State after one call. A receive that would block leaves the state as it is. -/
def EventEmitter.step (e : EventEmitter) : EmitterOp → Except String EventEmitter
  | .subscribe t => .ok (e.Subscribe t).2
  | .unsubscribe t ch => e.Unsubscribe t ch
  | .emit t o k => e.Emit t o k
  | .receive ch =>
    match (e.chans ch).recv with
    | none => .ok e
    | some (_, c) => .ok { e with chans := Function.update e.chans ch c }

/-- State after a sequence of calls, or the first panic. -/
def EventEmitter.run (e : EventEmitter) : List EmitterOp → Except String EventEmitter
  | [] => .ok e
  | op :: ops =>
    match e.step op with
    | .error msg => .error msg
    | .ok e1 => e1.run ops

/-- Event that one call hands to the receiver of channel `ch`: the event a receive on
`ch` obtains; nothing for a receive that blocks and for every other call. -/
def EventEmitter.delivered (ch : Nat) (e : EventEmitter) : EmitterOp → List TableChangeEvent
  | .receive c =>
    if c = ch then
      match (e.chans ch).recv with
      | some (ev, _) => [ev]
      | none => []
    else []
  | _ => []

/-- Events that the receives on channel `ch` obtain, in order, during a sequence of calls. -/
def EventEmitter.received (ch : Nat) (e : EventEmitter) : List EmitterOp → List TableChangeEvent
  | [] => []
  | op :: ops =>
    match e.step op with
    | .error _ => []
    | .ok e1 => e.delivered ch op ++ e1.received ch ops

/-- Events that the `Emit` calls of a sequence publish for table `t`, in publish order. -/
def emittedFor (t : String) : List EmitterOp → List TableChangeEvent
  | [] => []
  | .emit t1 o k :: ops =>
    if t1 = t then { TableName := t1, Operation := o, PrimaryKey := k } :: emittedFor t ops
    else emittedFor t ops
  | _ :: ops => emittedFor t ops

/-- Invariant of the emitter: every registered handle has been allocated, is open, and is
registered once, under one table. -/
structure EventEmitter.WF (e : EventEmitter) : Prop where
  fresh : ∀ t h, h ∈ e.listeners t → h < e.nextChan
  isOpen : ∀ t h, h ∈ e.listeners t → (e.chans h).closed = false
  nodup : ∀ t, (e.listeners t).Nodup
  uniq : ∀ t t1 h, h ∈ e.listeners t → h ∈ e.listeners t1 → t = t1

/-- Channel after a non-blocking send on an open channel. -/
def sendResult (c : Chan) (event : TableChangeEvent) : Chan :=
  if c.buf.length < c.cap then { c with buf := c.buf ++ [event] } else c

/-- Number of `Subscribe` calls for table `t` in a sequence of calls. -/
def subscribeCount (t : String) : List EmitterOp → Nat
  | [] => 0
  | .subscribe t1 :: ops => (if t1 = t then 1 else 0) + subscribeCount t ops
  | _ :: ops => subscribeCount t ops

/-- Number of `Unsubscribe` calls for table `t` in a sequence of calls. -/
def unsubscribeCount (t : String) : List EmitterOp → Nat
  | [] => 0
  | .unsubscribe t1 _ :: ops => (if t1 = t then 1 else 0) + unsubscribeCount t ops
  | _ :: ops => unsubscribeCount t ops

/-- Caller discipline for a sequence of calls: every `Unsubscribe(t, h)` names a handle
that an earlier `Subscribe(t)` returned and that no earlier `Unsubscribe` has released.
`k` is the handle the next `Subscribe` returns and `live` the (handle, table) pairs
handed out and not yet released. -/
def disciplined : Nat → List (Nat × String) → List EmitterOp → Bool
  | _, _, [] => true
  | k, live, .subscribe t :: ops => disciplined (k + 1) ((k, t) :: live) ops
  | k, live, .unsubscribe t h :: ops =>
    decide ((h, t) ∈ live) && disciplined k (live.erase (h, t)) ops
  | k, live, _ :: ops => disciplined k live ops

/-- An emitter state with two queues registered for table "t": queue 0 is full and
queue 1 is empty. It is the state after `Subscribe("t")`, `chanBufferSize` calls
`Emit("t", "insert", nil)` and a second `Subscribe("t")` (see `twoListeners_reachable`). -/
def twoListeners : EventEmitter :=
  { listeners := fun t => if t = "t" then [0, 1] else [],
    chans := fun h =>
      if h = 0 then
        { buf := List.replicate chanBufferSize (TableChangeEvent.mk "t" "insert" none),
          cap := chanBufferSize, closed := false }
      else if h = 1 then makeChan chanBufferSize
      else makeChan 0,
    nextChan := 2 }

/-! ## subscription_manager.go -/

/-- QuerySubscription represents an active subscription to query results. `id` is the
`uuid.UUID`, `stmt` the statement (the registry never inspects it), `affectedRanges` the
`roachpb.RangeID`s, `active` the flag under the subscription's own mutex. `startTime` is
never written by this file and is left out. -/
structure QuerySubscription where
  id : Nat
  stmt : String
  affectedRanges : List Int
  active : Bool
deriving DecidableEq, Repr

/-- SubscriptionManager manages active query subscriptions. `subscriptions` maps an id to
a pointer to its `QuerySubscription`; `heap` holds the pointed-to objects and `nextPtr` is
the next address `&QuerySubscription{...}` will get; `rangeToSubs` is the map from range
to the set of subscription ids (`none` for a missing key). -/
structure SubscriptionManager where
  subscriptions : Nat → Option Nat
  rangeToSubs : Int → Option (Finset Nat)
  heap : Nat → QuerySubscription
  nextPtr : Nat

/-- NewSubscriptionManager creates a new subscription manager. -/
def NewSubscriptionManager : SubscriptionManager :=
  { subscriptions := fun _ => none,
    rangeToSubs := fun _ => none,
    heap := fun _ => { id := 0, stmt := "", affectedRanges := [], active := false },
    nextPtr := 0 }

/-- Loop of `Subscribe` over `ranges`: create the per-range set when it is nil, then
insert the id into it. -/
def subscribeRanges (subID : Nat) :
    List Int → (Int → Option (Finset Nat)) → (Int → Option (Finset Nat))
  | [], m => m
  | rangeID :: rest, m =>
    let set : Finset Nat :=
      match m rangeID with
      | none => ∅
      | some s => s
    subscribeRanges subID rest (Function.update m rangeID (some (insert subID set)))

/-- Subscribe registers a new query subscription. `newID` is the value `uuid.MakeV4()`
returns for this call. The returned error is always nil. -/
def SubscriptionManager.Subscribe (sm : SubscriptionManager) (newID : Nat) (stmt : String)
    (ranges : List Int) : (Nat × Option String) × SubscriptionManager :=
  let sub : QuerySubscription :=
    { id := newID, stmt := stmt, affectedRanges := ranges, active := true }
  let ptr := sm.nextPtr
  ((sub.id, none),
   { subscriptions := Function.update sm.subscriptions sub.id (some ptr),
     rangeToSubs := subscribeRanges sub.id ranges sm.rangeToSubs,
     heap := Function.update sm.heap ptr sub,
     nextPtr := sm.nextPtr + 1 })

/-- Loop of `Unsubscribe` over the subscription's ranges: delete the id from the
per-range set (a no-op on a nil set) and delete the entry when the set has become empty. -/
def unsubscribeRanges (subID : Nat) :
    List Int → (Int → Option (Finset Nat)) → (Int → Option (Finset Nat))
  | [], m => m
  | rangeID :: rest, m =>
    let m1 :=
      match m rangeID with
      | none => m
      | some s => Function.update m rangeID (some (s.erase subID))
    let len : Nat :=
      match m1 rangeID with
      | none => 0
      | some s => s.card
    let m2 := if len = 0 then Function.update m1 rangeID none else m1
    unsubscribeRanges subID rest m2

/-- Unsubscribe removes a subscription. -/
def SubscriptionManager.Unsubscribe (sm : SubscriptionManager) (subID : Nat) :
    SubscriptionManager :=
  match sm.subscriptions subID with
  | none => sm
  | some ptr =>
    let sub := sm.heap ptr
    { subscriptions := Function.update sm.subscriptions subID none,
      rangeToSubs := unsubscribeRanges subID sub.affectedRanges sm.rangeToSubs,
      heap := Function.update sm.heap ptr { sub with active := false },
      nextPtr := sm.nextPtr }

/-- GetSubscription returns a subscription by ID (the object the stored pointer refers
to, and whether the id is a key of the map). -/
def SubscriptionManager.GetSubscription (sm : SubscriptionManager) (subID : Nat) :
    Option QuerySubscription × Bool :=
  match sm.subscriptions subID with
  | none => (none, false)
  | some ptr => (some (sm.heap ptr), true)

/-- Members of the entry `m[r]` of a range map; a missing entry has no members. -/
def setAt (m : Int → Option (Finset Nat)) (r : Int) : Finset Nat :=
  match m r with
  | none => ∅
  | some s => s

/-- Members of `rangeToSubs[r]`. -/
def SubscriptionManager.rangeSet (sm : SubscriptionManager) (r : Int) : Finset Nat :=
  setAt sm.rangeToSubs r

/-- Calls on the registry: `Subscribe` carries the id that `uuid.MakeV4()` draws. -/
inductive RegistryOp where
  | subscribe (newID : Nat) (stmt : String) (ranges : List Int)
  | unsubscribe (subID : Nat)
deriving DecidableEq, Repr

/-- State after one registry call. -/
def SubscriptionManager.step (sm : SubscriptionManager) : RegistryOp → SubscriptionManager
  | .subscribe newID stmt ranges => (sm.Subscribe newID stmt ranges).2
  | .unsubscribe subID => sm.Unsubscribe subID

/-- State after a sequence of registry calls, the first call first. -/
def SubscriptionManager.run (sm : SubscriptionManager) : List RegistryOp → SubscriptionManager
  | [] => sm
  | op :: ops => (sm.step op).run ops

/-- Ids drawn by the `Subscribe` calls of a sequence, in call order. -/
def drawnIds : List RegistryOp → List Nat
  | [] => []
  | .subscribe newID _ _ :: ops => newID :: drawnIds ops
  | .unsubscribe _ :: ops => drawnIds ops

/-- Range list that the id declared: the `ranges` argument of the `Subscribe` call that
drew it (the empty list for an id no call drew). -/
def declaredRanges (subID : Nat) : List RegistryOp → List Int
  | [] => []
  | .subscribe newID _ ranges :: ops =>
    if newID = subID then ranges else declaredRanges subID ops
  | .unsubscribe _ :: ops => declaredRanges subID ops

/-- Invariant of the registry after the calls `ops`: a live id points to an allocated
object that holds the range list the id declared, and the reverse index holds an id
under a range exactly when the id is live and declared that range. -/
structure RegistryInv (sm : SubscriptionManager) (ops : List RegistryOp) : Prop where
  live : ∀ id p, sm.subscriptions id = some p →
    p < sm.nextPtr ∧ id ∈ drawnIds ops ∧ (sm.heap p).affectedRanges = declaredRanges id ops
  index : ∀ id r, id ∈ sm.rangeSet r ↔
    (sm.subscriptions id).isSome = true ∧ r ∈ declaredRanges id ops

/-! ## subscribe.go -/

/-- A `tree.Datum`. The type is declared outside these files; the code here only builds
`tree.DNull` and passes other values through, which are kept as an uninterpreted payload. -/
inductive Datum where
  | DNull
  | DVal (v : String)
deriving DecidableEq, Repr

/-- A row, `tree.Datums`. -/
abbrev Datums := List Datum

/-- One column of `colinfo.ResultColumns`. -/
structure ResultColumn where
  Name : String
  Typ : String
deriving DecidableEq, Repr

/-- Arguments of one `QueryBufferedExWithCols` call: operation name, the session
override (user and database), the statement text and the variadic `qargs` that are
bound to the statement's placeholders. The transaction argument is always nil. -/
structure ExecRequest where
  opName : String
  user : String
  database : String
  stmt : String
  qargs : List Datum
deriving DecidableEq, Repr

/-- The three results of `QueryBufferedExWithCols`; `cols = none` and `err = none` are nil. -/
structure QueryResult where
  rows : List Datums
  cols : Option (List ResultColumn)
  err : Option String
deriving DecidableEq, Repr

/-- The internal executor, an external collaborator: its answer to a request may depend
on the requests that came before it. -/
abbrev Executor := List ExecRequest → ExecRequest → QueryResult

/-- Fields of subscribeNode that `Next`, `Values` and `Close` use. `eventChan` is a
channel handle. -/
structure subscribeNode where
  columns : List ResultColumn
  currentRows : List Datums
  currentIdx : Int
  queryString : String
  tableName : String
  dbName : String
  user : String
  eventChan : Nat
deriving DecidableEq, Repr

/-- What a `Next` call sees outside the node: the state of `n.eventChan`, the context
(`ctxErr = some e` once `ctx.Done()` is closed, with `ctx.Err() = e`), and the requests
submitted to the executor so far. -/
structure ExecEnv where
  chan : Chan
  ctxErr : Option String
  log : List ExecRequest
deriving DecidableEq, Repr

/-- Outcome of a `Next` call: it returned `(hasRow, err)`; or it is suspended in the
`select` with no case ready; or the loop is still running when the step budget ends. -/
inductive NextResult where
  | ret (hasRow : Bool) (err : Option String) (n : subscribeNode) (env : ExecEnv)
  | blocked (n : subscribeNode) (env : ExecEnv)
  | running (n : subscribeNode) (env : ExecEnv)
deriving DecidableEq, Repr

/-- Node held by an outcome. -/
def NextResult.node : NextResult → subscribeNode
  | .ret _ _ n _ => n
  | .blocked n _ => n
  | .running n _ => n

/-- Environment held by an outcome. -/
def NextResult.env : NextResult → ExecEnv
  | .ret _ _ _ env => env
  | .blocked _ env => env
  | .running _ env => env

/-- Text of `queryToExecute` built in `Next` for a received event. `rangeOrder` gives the
order in which `for col, val := range event.PrimaryKey` visits the entries of the map,
which the Go runtime does not fix. -/
def refreshQuery (rangeOrder : List (String × String) → List (String × String))
    (queryString : String) (event : TableChangeEvent) : String :=
  match event.PrimaryKey with
  | none => queryString
  | some kvs =>
    if kvs.length > 0 then
      let conditions := (rangeOrder kvs).map (fun cv => "base." ++ cv.1 ++ " = " ++ cv.2)
      let whereClause := String.intercalate " AND " conditions
      "WITH base AS (" ++ queryString ++ ") SELECT * FROM base WHERE " ++ whereClause
    else queryString

/-- Request that `Next` passes to `QueryBufferedExWithCols` for a received event: no
`qargs` follow the statement text. -/
def refreshRequest (rangeOrder : List (String × String) → List (String × String))
    (n : subscribeNode) (event : TableChangeEvent) : ExecRequest :=
  { opName := "subscribe-refresh", user := n.user, database := n.dbName,
    stmt := refreshQuery rangeOrder n.queryString event, qargs := [] }

/-- The `for { select { ... } }` loop of `Next`, for at most `fuel` iterations. When both
the channel and `ctx.Done()` are ready the runtime picks one; `sel 0` tells whether it
picks `ctx.Done()` in the current iteration, `sel 1` in the next one, and so on. -/
def waitLoop (ie : Executor) (rangeOrder : List (String × String) → List (String × String)) :
    Nat → (Nat → Bool) → subscribeNode → ExecEnv → NextResult
  | 0, _, n, env => .running n env
  | fuel + 1, sel, n, env =>
    match env.chan.recv with
    | none =>
      match env.ctxErr with
      | none => .blocked n env
      | some e => .ret false (some e) n env
    | some (event, ch) =>
      if env.ctxErr.isSome && sel 0 then .ret false env.ctxErr n env
      else
        let req := refreshRequest rangeOrder n event
        let res := ie env.log req
        let env1 : ExecEnv := { env with chan := ch, log := env.log ++ [req] }
        match res.err with
        | some err => .ret false (some err) n env1
        | none =>
          if res.rows.length > 1 then
            .ret true none { n with currentRows := res.rows, currentIdx := 1 } env1
          else waitLoop ie rangeOrder fuel (fun k => sel (k + 1)) n env1

/-- Next implements the planNode interface. -/
def subscribeNode.Next (ie : Executor)
    (rangeOrder : List (String × String) → List (String × String))
    (fuel : Nat) (sel : Nat → Bool) (n : subscribeNode) (env : ExecEnv) : NextResult :=
  if n.currentIdx < n.currentRows.length then
    .ret true none { n with currentIdx := n.currentIdx + 1 } env
  else waitLoop ie rangeOrder fuel sel n env

/-- Values implements the planNode interface. -/
def subscribeNode.Values (n : subscribeNode) : Datums :=
  if h : n.currentIdx > 0 ∧ n.currentIdx ≤ n.currentRows.length then
    n.currentRows.get ⟨(n.currentIdx - 1).toNat, by omega⟩
  else [Datum.DNull]

/-- State after `k` successive `Next` calls that each return `(true, nil)`; `none` when
one of them does anything else. -/
def nextCalls (ie : Executor) (rangeOrder : List (String × String) → List (String × String))
    (fuel : Nat) (sel : Nat → Bool) : Nat → subscribeNode → ExecEnv → Option (subscribeNode × ExecEnv)
  | 0, n, env => some (n, env)
  | k + 1, n, env =>
    match subscribeNode.Next ie rangeOrder fuel sel n env with
    | .ret true none n1 env1 => nextCalls ie rangeOrder fuel sel k n1 env1
    | _ => none

/-- A node on `SELECT * FROM accounts` whose initial batch was empty, so that its
buffered rows are exhausted. -/
def waitingNode : subscribeNode :=
  { columns := [], currentRows := [], currentIdx := 0,
    queryString := "SELECT * FROM accounts", tableName := "accounts",
    dbName := "defaultdb", user := "root", eventChan := 0 }

/-- An update event on `accounts` with key `{id: v}`. -/
def keyedEvent (v : String) : TableChangeEvent :=
  { TableName := "accounts", Operation := "update", PrimaryKey := some [("id", v)] }

/-- Environment of a `Next` call with one event queued and the context not cancelled. -/
def envWith (event : TableChangeEvent) : ExecEnv :=
  { chan := { buf := [event], cap := chanBufferSize, closed := false },
    ctxErr := none, log := [] }

/-- An executor that answers every request with the given batch and no error. -/
def constExecutor (rows : List Datums) : Executor :=
  fun _ _ => { rows := rows, cols := none, err := none }

/-- A node as `planner.Subscribe` returns it when the initial query yields two rows. -/
def twoRowNode : subscribeNode :=
  { columns := [], currentRows := [[Datum.DVal "1"], [Datum.DVal "2"]], currentIdx := 0,
    queryString := "SELECT * FROM accounts", tableName := "accounts",
    dbName := "defaultdb", user := "root", eventChan := 0 }

/-- OnRangeChange is called when a range has changes. It reads `rangeToSubs[rangeID]`
and returns when the set is empty; what follows in the source is only the comment
`TODO: Trigger re-execution for affected subscriptions`, so nothing is sent to any
subscription. The second component lists the subscriptions the call notifies. `event`
stands for the `*kvpb.RangeFeedEvent`, which the body never reads. -/
def SubscriptionManager.OnRangeChange (sm : SubscriptionManager) (rangeID : Int)
    (_event : String) : SubscriptionManager × List Nat :=
  let subs := sm.rangeToSubs rangeID
  let len : Nat :=
    match subs with
    | none => 0
    | some s => s.card
  if len = 0 then (sm, [])
  else (sm, [])

/-- Shape of the registry that every sequence of calls keeps: a live id points to an
allocated object that carries this id and is active, and no entry of `rangeToSubs` is an
empty set. -/
structure RegistryShape (sm : SubscriptionManager) : Prop where
  ownId : ∀ id p, sm.subscriptions id = some p →
    p < sm.nextPtr ∧ (sm.heap p).id = id ∧ (sm.heap p).active = true
  nonempty : ∀ r, sm.rangeToSubs r ≠ some ∅

/-- One condition of the refresh filter, as `Next` builds it for a key entry. -/
def keyCondition (cv : String × String) : String := "base." ++ cv.1 ++ " = " ++ cv.2

/-- An executor whose every answer is the given error. -/
def failingExecutor (err : String) : Executor :=
  fun _ _ => { rows := [], cols := none, err := some err }

/-! ## subscribe.go: table name extraction

`tableNameRegex` is `(?i)FROM\s+([a-zA-Z_][a-zA-Z0-9_]*)`, compiled by Go's `regexp`
package (RE2 syntax, leftmost match, greedy repetition). Characters are compared by code
point. -/

/-- A literal letter of the pattern under the flag `(?i)`: the character is the upper-case
letter with code `upper` or its lower-case form. None of F, R, O, M has another character
in its case-folding orbit. -/
def foldsTo (c : Char) (upper : Nat) : Bool :=
  c.toNat = upper || c.toNat = upper + 32

/-- The class `\s` of Go's regexp: tab, newline, form feed, carriage return, space. -/
def isRegexSpace (c : Char) : Bool :=
  c.toNat = 9 || c.toNat = 10 || c.toNat = 12 || c.toNat = 13 || c.toNat = 32

/-- The class `[a-zA-Z_]` as written in the pattern. -/
def isAsciiIdentStart (c : Char) : Bool :=
  (65 ≤ c.toNat && c.toNat ≤ 90) || (97 ≤ c.toNat && c.toNat ≤ 122) || c.toNat = 95

/-- The class `[a-zA-Z_]` as the pattern compiles it under `(?i)`: Go's parser closes a
class under simple case folding, which adds U+017F (LATIN SMALL LETTER LONG S, folds
to `s`) and U+212A (KELVIN SIGN, folds to `k`) to the ASCII letters. -/
def isIdentStart (c : Char) : Bool :=
  isAsciiIdentStart c || c.toNat = 383 || c.toNat = 8490

/-- The class `[a-zA-Z0-9_]` as the pattern compiles it under `(?i)`. -/
def isIdentChar (c : Char) : Bool :=
  isIdentStart c || (48 ≤ c.toNat && c.toNat ≤ 57)

/-- The rest of the pattern after `FROM` has matched: `\s+` takes every following space
character (at least one is needed), then the group takes an identifier start and every
following identifier character. The result is the text of group 1. Taking fewer spaces
cannot help, because a space is not an identifier start. -/
def afterFrom (rest : List Char) : Option (List Char) :=
  if (rest.takeWhile isRegexSpace).length > 0 then
    match rest.dropWhile isRegexSpace with
    | c :: tail => if isIdentStart c then some (c :: tail.takeWhile isIdentChar) else none
    | [] => none
  else none

/-- A match of the pattern that begins at the first character of `s`: group 1 of it. -/
def matchHere : List Char → Option (List Char)
  | f :: r :: o :: m :: rest =>
    if foldsTo f 70 && foldsTo r 82 && foldsTo o 79 && foldsTo m 77 then afterFrom rest
    else none
  | _ => none

/-- Group 1 of the leftmost match, as `tableNameRegex.FindStringSubmatch` finds it: the
start positions are tried from left to right. `none` is the nil result. -/
def findSubmatch : List Char → Option (List Char)
  | [] => none
  | c :: rest =>
    match matchHere (c :: rest) with
    | some g => some g
    | none => findSubmatch rest

/-- Lower-case form of a character, `unicode.ToLower`, on the characters an identifier of
the pattern can hold: an ASCII capital gets its small letter, the Kelvin sign gets `k`,
and digits, underscore, small letters and U+017F are their own lower-case form. -/
def lowerRune (c : Char) : Char :=
  if 65 ≤ c.toNat ∧ c.toNat ≤ 90 then Char.ofNat (c.toNat + 32)
  else if c.toNat = 8490 then Char.ofNat 107
  else c

/-- Library function `strings.ToLower`, applied here only to the text of group 1 and to
its lower-case form. -/
def stringsToLower (s : String) : String := String.mk (s.data.map lowerRune)

/-- Function extractTableName of subscribe.go: group 1 of the leftmost match in lower
case, or the empty string when there is no match. -/
def extractTableName (query : String) : String :=
  match findSubmatch query.data with
  | some g => stringsToLower (String.mk g)
  | none => ""

/-- The parts of the planner that `Subscribe` and `Close` use: the session user
(`p.User()`), the current database, the flag `curPlan.avoidBuffering`, and
`ExecCfg().EventEmitter`, where `none` is the nil pointer. -/
structure planner where
  user : String
  database : String
  avoidBuffering : Bool
  EventEmitter : Option EventEmitter

/-- Arguments of the `QueryBufferedExWithCols` call that `planner.Subscribe` makes. -/
def initRequest (p : planner) (queryStr : String) : ExecRequest :=
  { opName := "subscribe-init", user := p.user, database := p.database,
    stmt := queryStr, qargs := [] }

/-- Placeholder column list that `planner.Subscribe` uses when the initial query fails
or returns no columns; the type is that of `tree.DNull`. -/
def placeholderColumns : List ResultColumn := [{ Name := "?column?", Typ := "unknown" }]

/-- Subscribe implements the SUBSCRIBE statement. `queryStr` is `n.Query.String()`, `ie`
the internal executor and `log` the requests it has received so far. The result is the
returned pair (node, error), the planner afterwards, and the executor log afterwards.
When an emitter is configured and a table name was extracted, the channel comes from
`EventEmitter.Subscribe`; otherwise it is a fresh unbuffered channel that is registered
nowhere: it is allocated in the emitter's heap when there is an emitter, and without
one (no heap is modelled then) it is given handle 0. -/
def planner.Subscribe (p : planner) (ie : Executor) (log : List ExecRequest)
    (queryStr : String) : (subscribeNode × Option String) × planner × List ExecRequest :=
  let tableName := stringsToLower (extractTableName queryStr)
  let res := ie log (initRequest p queryStr)
  let cols : List ResultColumn :=
    match res.err, res.cols with
    | none, some cols => cols
    | _, _ => placeholderColumns
  let chanAndEmitter : Nat × Option Reactive.EventEmitter :=
    match p.EventEmitter with
    | some e =>
      if tableName ≠ "" then ((e.Subscribe tableName).1, some (e.Subscribe tableName).2)
      else
        (e.nextChan,
          some (Reactive.EventEmitter.mk e.listeners
            (Function.update e.chans e.nextChan (makeChan 0)) (e.nextChan + 1)))
    | none => (0, none)
  (({ columns := cols, currentRows := res.rows, currentIdx := 0, queryString := queryStr,
      tableName := tableName, dbName := p.database, user := p.user,
      eventChan := chanAndEmitter.1 }, none),
   { p with avoidBuffering := true, EventEmitter := chanAndEmitter.2 },
   log ++ [initRequest p queryStr])

/-- Close implements the planNode interface. A channel handle is never nil, so the guard
`n.eventChan != nil && n.tableName != ""` is the test on the table name. The call
`n.p.ExecCfg().EventEmitter.Unsubscribe(...)` dereferences the emitter pointer (it locks
`e.mu`), which panics when the pointer is nil. -/
def subscribeNode.Close (n : subscribeNode) (p : planner) : Except String planner :=
  if n.tableName ≠ "" then
    match p.EventEmitter with
    | none => .error "invalid memory address or nil pointer dereference"
    | some e =>
      match e.Unsubscribe n.tableName n.eventChan with
      | .error msg => .error msg
      | .ok e1 => .ok { p with EventEmitter := some e1 }
  else .ok p

/-- Channels registered with the planner's emitter for a table; none without an emitter. -/
def planner.listeners (p : planner) (t : String) : List Nat :=
  match p.EventEmitter with
  | some e => e.listeners t
  | none => []

/-- Whether a `Close` call panicked. -/
def panicked (r : Except String planner) : Bool :=
  match r with
  | .error _ => true
  | .ok _ => false

/-- A planner of user root on defaultdb with a new emitter configured. -/
def plannerWithEmitter : planner :=
  { user := "root", database := "defaultdb", avoidBuffering := false,
    EventEmitter := some NewEventEmitter }

/-- A planner of user root on defaultdb with no emitter configured. -/
def plannerWithoutEmitter : planner :=
  { user := "root", database := "defaultdb", avoidBuffering := false,
    EventEmitter := none }

/-! ## subscribe.go: sequences of Next calls -/

/-- Which `return` statement of `Values` is taken: `some i` when it returns
`n.currentRows[i]`, `none` when it returns the placeholder `tree.Datums{tree.DNull}`. -/
def subscribeNode.valuesIndex (n : subscribeNode) : Option Nat :=
  if n.currentIdx > 0 ∧ n.currentIdx ≤ n.currentRows.length then
    some (n.currentIdx - 1).toNat
  else none

/-- Everything outside the node that one `Next` call depends on: the executor, the
iteration order of key maps, the step budget, the choices of the `select`, and the
environment (event queue, context, executor log) at the time of the call. -/
structure NextCall where
  ie : Executor
  rangeOrder : List (String × String) → List (String × String)
  fuel : Nat
  sel : Nat → Bool
  env : ExecEnv

/-- Outcome of one `Next` call on the node. -/
def subscribeNode.callNext (n : subscribeNode) (c : NextCall) : NextResult :=
  subscribeNode.Next c.ie c.rangeOrder c.fuel c.sel n c.env

/-- The node after a sequence of `Next` calls, each with its own environment. A call
that is suspended in the `select`, or whose loop is still running, leaves a node with no
unread rows, so resuming it is a further call in the sequence. -/
def subscribeNode.afterCalls (n : subscribeNode) : List NextCall → subscribeNode
  | [] => n
  | c :: cs => (n.callNext c).node.afterCalls cs

/-! ## Properties of the emitter -/

theorem trySend_of_open (c : Chan) (ev : TableChangeEvent) (h : c.closed = false) :
    trySend c ev = .ok (sendResult c ev) := by
  unfold trySend sendResult
  simp only [h, Bool.false_eq_true, if_false]
  split <;> rfl

theorem sendResult_closed (c : Chan) (ev : TableChangeEvent) :
    (sendResult c ev).closed = c.closed := by
  unfold sendResult
  split <;> rfl

theorem emitLoop_ok (ev : TableChangeEvent) :
    ∀ (ls : List Nat) (chans : Nat → Chan), ls.Nodup →
      (∀ h ∈ ls, (chans h).closed = false) →
      emitLoop ev ls chans =
        .ok (fun h => if h ∈ ls then sendResult (chans h) ev else chans h)
  | [], chans, _, _ => by simp [emitLoop]
  | x :: rest, chans, hnd, hopen => by
    have hx : (chans x).closed = false := hopen x (List.mem_cons_self _ _)
    have hnd1 := List.nodup_cons.mp hnd
    rw [emitLoop, trySend_of_open _ _ hx]
    simp only
    rw [emitLoop_ok ev rest _ hnd1.2 ?_]
    · congr 1
      funext h
      by_cases hxh : h = x
      · subst hxh
        simp [hnd1.1]
      · simp [hxh, Function.update_noteq hxh]
    · intro h hh
      have hne : h ≠ x := fun heq => hnd1.1 (heq ▸ hh)
      rw [Function.update_noteq hne]
      exact hopen h (List.mem_cons_of_mem _ hh)

theorem Emit_ok (e : EventEmitter) (hwf : e.WF) (t o : String)
    (k : Option (List (String × String))) :
    e.Emit t o k =
      .ok (EventEmitter.mk e.listeners
        (fun h =>
          if h ∈ e.listeners t then
            sendResult (e.chans h) (TableChangeEvent.mk t o k)
          else e.chans h)
        e.nextChan) := by
  unfold EventEmitter.Emit
  simp only
  split
  · rename_i hlen
    have hnil : e.listeners t = [] := List.length_eq_zero.mp hlen
    simp [hnil]
  · rw [emitLoop_ok _ _ _ (hwf.nodup t) (fun h hh => hwf.isOpen t h hh)]

theorem unsubscribeLoop_eq (e : EventEmitter) (t : String) (ch : Nat) (listeners : List Nat) :
    ∀ (rest pre : List Nat), listeners = pre ++ rest → ch ∉ pre →
      unsubscribeLoop e t ch listeners pre.length rest =
        if ch ∈ rest then
          match closeChan (e.chans ch) with
          | .error msg => .error msg
          | .ok c =>
            .ok { e with
                  listeners := Function.update e.listeners t (listeners.erase ch),
                  chans := Function.update e.chans ch c }
        else .ok e
  | [], pre, _, _ => by simp [unsubscribeLoop]
  | x :: rest, pre, hl, hpre => by
    rw [unsubscribeLoop]
    by_cases hx : x = ch
    · subst hx
      have herase : listeners.erase x = pre ++ rest := by
        rw [hl, List.erase_append_right _ hpre, List.erase_cons_head]
      have htd : listeners.take pre.length ++ listeners.drop (pre.length + 1) = pre ++ rest := by
        rw [hl]
        simp
      simp only [if_true, List.mem_cons, true_or, htd, herase]
    · have hl1 : listeners = (pre ++ [x]) ++ rest := by simp [hl]
      have hpre1 : ch ∉ pre ++ [x] := by
        simp only [List.mem_append, List.mem_singleton, not_or]
        exact ⟨hpre, fun h => hx h.symm⟩
      have ih := unsubscribeLoop_eq e t ch listeners rest (pre ++ [x]) hl1 hpre1
      simp only [List.length_append, List.length_singleton] at ih
      simp only [hx, if_false, ih, List.mem_cons]
      have : (ch = x ∨ ch ∈ rest) ↔ ch ∈ rest := by
        constructor
        · rintro (h | h)
          · exact absurd h.symm hx
          · exact h
        · exact Or.inr
      simp only [this]

theorem Unsubscribe_eq (e : EventEmitter) (t : String) (ch : Nat) :
    e.Unsubscribe t ch =
      if ch ∈ e.listeners t then
        match closeChan (e.chans ch) with
        | .error msg => .error msg
        | .ok c =>
          .ok { e with
                listeners := Function.update e.listeners t ((e.listeners t).erase ch),
                chans := Function.update e.chans ch c }
      else .ok e := by
  unfold EventEmitter.Unsubscribe
  simp only
  exact unsubscribeLoop_eq e t ch (e.listeners t) (e.listeners t) [] rfl (List.not_mem_nil _)

theorem Unsubscribe_of_not_mem (e : EventEmitter) (t : String) (ch : Nat)
    (h : ch ∉ e.listeners t) : e.Unsubscribe t ch = .ok e := by
  rw [Unsubscribe_eq, if_neg h]

theorem Unsubscribe_of_mem (e : EventEmitter) (hwf : e.WF) (t : String) (ch : Nat)
    (h : ch ∈ e.listeners t) :
    e.Unsubscribe t ch =
      .ok { e with
            listeners := Function.update e.listeners t ((e.listeners t).erase ch),
            chans := Function.update e.chans ch { e.chans ch with closed := true } } := by
  rw [Unsubscribe_eq, if_pos h]
  simp [closeChan, hwf.isOpen t ch h]

theorem WF_new : NewEventEmitter.WF where
  fresh := by simp [NewEventEmitter]
  isOpen := by simp [NewEventEmitter]
  nodup := by simp [NewEventEmitter]
  uniq := by simp [NewEventEmitter]

theorem mem_listeners_Subscribe (e : EventEmitter) (t t1 : String) (h : Nat) :
    h ∈ (e.Subscribe t).2.listeners t1 ↔ h ∈ e.listeners t1 ∨ (t1 = t ∧ h = e.nextChan) := by
  unfold EventEmitter.Subscribe
  simp only [Function.update_apply]
  by_cases ht : t1 = t
  · subst ht
    simp
  · simp [ht]

theorem WF_Subscribe (e : EventEmitter) (hwf : e.WF) (t : String) : (e.Subscribe t).2.WF where
  fresh := by
    intro t1 h hh
    rcases (mem_listeners_Subscribe e t t1 h).mp hh with h1 | ⟨_, h1⟩
    · have := hwf.fresh t1 h h1
      show h < e.nextChan + 1
      omega
    · show h < e.nextChan + 1
      omega
  isOpen := by
    intro t1 h hh
    show (Function.update e.chans e.nextChan (makeChan chanBufferSize) h).closed = false
    rcases (mem_listeners_Subscribe e t t1 h).mp hh with h1 | ⟨_, h1⟩
    · have hlt := hwf.fresh t1 h h1
      have hne : h ≠ e.nextChan := by omega
      rw [Function.update_noteq hne]
      exact hwf.isOpen t1 h h1
    · subst h1
      simp [makeChan]
  nodup := by
    intro t1
    show (Function.update e.listeners t (e.listeners t ++ [e.nextChan]) t1).Nodup
    by_cases ht : t1 = t
    · subst ht
      rw [Function.update_same]
      refine List.Nodup.append (hwf.nodup t1) (List.nodup_singleton _) ?_
      intro a ha hb
      have := hwf.fresh t1 a ha
      simp only [List.mem_singleton] at hb
      omega
    · rw [Function.update_noteq ht]
      exact hwf.nodup t1
  uniq := by
    intro t1 t2 h h1 h2
    rcases (mem_listeners_Subscribe e t t1 h).mp h1 with a1 | ⟨a1, b1⟩
    · rcases (mem_listeners_Subscribe e t t2 h).mp h2 with a2 | ⟨_, b2⟩
      · exact hwf.uniq t1 t2 h a1 a2
      · have := hwf.fresh t1 h a1
        omega
    · rcases (mem_listeners_Subscribe e t t2 h).mp h2 with a2 | ⟨a2, _⟩
      · have := hwf.fresh t2 h a2
        omega
      · rw [a1, a2]

theorem WF_Unsubscribe (e : EventEmitter) (hwf : e.WF) (t : String) (ch : Nat) :
    ∃ e1, e.Unsubscribe t ch = .ok e1 ∧ e1.WF ∧ e1.nextChan = e.nextChan ∧
      (∀ t1 h, h ∈ e1.listeners t1 ↔ h ∈ e.listeners t1 ∧ ¬ (t1 = t ∧ h = ch)) ∧
      (∀ h, h ≠ ch → e1.chans h = e.chans h) := by
  by_cases hmem : ch ∈ e.listeners t
  · rw [Unsubscribe_of_mem e hwf t ch hmem]
    refine ⟨_, rfl, ?_, rfl, ?_, ?_⟩
    · have hsub : ∀ t1 h, h ∈ Function.update e.listeners t ((e.listeners t).erase ch) t1 →
          h ∈ e.listeners t1 := by
        intro t1 h hh
        by_cases ht : t1 = t
        · subst ht
          rw [Function.update_same] at hh
          exact List.mem_of_mem_erase hh
        · rwa [Function.update_noteq ht] at hh
      constructor
      · intro t1 h hh
        exact hwf.fresh t1 h (hsub t1 h hh)
      · intro t1 h hh
        show (Function.update e.chans ch _ h).closed = false
        have hold := hsub t1 h hh
        by_cases hc : h = ch
        · subst hc
          exfalso
          have ht : t1 = t := hwf.uniq t1 t h hold hmem
          subst ht
          change h ∈ Function.update e.listeners t1 ((e.listeners t1).erase h) t1 at hh
          rw [Function.update_same] at hh
          exact (List.Nodup.not_mem_erase (hwf.nodup t1)) hh
        · rw [Function.update_noteq hc]
          exact hwf.isOpen t1 h hold
      · intro t1
        show (Function.update e.listeners t ((e.listeners t).erase ch) t1).Nodup
        by_cases ht : t1 = t
        · subst ht
          rw [Function.update_same]
          exact (hwf.nodup t1).erase ch
        · rw [Function.update_noteq ht]
          exact hwf.nodup t1
      · intro t1 t2 h h1 h2
        exact hwf.uniq t1 t2 h (hsub t1 h h1) (hsub t2 h h2)
    · intro t1 h
      show h ∈ Function.update e.listeners t ((e.listeners t).erase ch) t1 ↔ _
      by_cases ht : t1 = t
      · subst ht
        rw [Function.update_same, (hwf.nodup t1).mem_erase_iff]
        constructor
        · rintro ⟨a, b⟩
          exact ⟨b, fun hc => a hc.2⟩
        · rintro ⟨a, b⟩
          exact ⟨fun hc => b ⟨rfl, hc⟩, a⟩
      · rw [Function.update_noteq ht]
        constructor
        · intro a
          exact ⟨a, fun hc => ht hc.1⟩
        · exact fun a => a.1
    · intro h hne
      show Function.update e.chans ch _ h = e.chans h
      rw [Function.update_noteq hne]
  · rw [Unsubscribe_of_not_mem e t ch hmem]
    refine ⟨e, rfl, hwf, rfl, ?_, fun _ _ => rfl⟩
    intro t1 h
    constructor
    · intro a
      refine ⟨a, ?_⟩
      rintro ⟨rfl, rfl⟩
      exact hmem a
    · exact fun a => a.1

theorem WF_Emit (e : EventEmitter) (hwf : e.WF) (t o : String)
    (k : Option (List (String × String))) :
    ∃ e1, e.Emit t o k = .ok e1 ∧ e1.WF ∧ e1.listeners = e.listeners ∧
      e1.nextChan = e.nextChan ∧
      ∀ h, e1.chans h =
        if h ∈ e.listeners t then sendResult (e.chans h) (TableChangeEvent.mk t o k)
        else e.chans h := by
  rw [Emit_ok e hwf]
  refine ⟨_, rfl, ?_, rfl, rfl, fun _ => rfl⟩
  constructor
  · exact hwf.fresh
  · intro t1 h hh
    show (if h ∈ e.listeners t then sendResult (e.chans h) (TableChangeEvent.mk t o k)
      else e.chans h).closed = false
    split
    · rw [sendResult_closed]
      exact hwf.isOpen t1 h hh
    · exact hwf.isOpen t1 h hh
  · exact hwf.nodup
  · exact hwf.uniq

theorem recv_closed (c c1 : Chan) (ev : TableChangeEvent) (h : c.recv = some (ev, c1)) :
    c1.closed = c.closed := by
  unfold Chan.recv at h
  split at h
  · simp only [Option.some.injEq, Prod.mk.injEq] at h
    rw [← h.2]
  · split at h
    · simp only [Option.some.injEq, Prod.mk.injEq] at h
      rw [← h.2]
    · exact absurd h (by simp)

theorem WF_receive (e : EventEmitter) (hwf : e.WF) (ch : Nat) :
    ∃ e1, e.step (.receive ch) = .ok e1 ∧ e1.WF ∧ e1.listeners = e.listeners ∧
      e1.nextChan = e.nextChan ∧ (∀ h, h ≠ ch → e1.chans h = e.chans h) := by
  have hstep : e.step (.receive ch) =
      match (e.chans ch).recv with
      | none => .ok e
      | some (_, c) => .ok (EventEmitter.mk e.listeners (Function.update e.chans ch c) e.nextChan) :=
    rfl
  rw [hstep]
  cases hr : (e.chans ch).recv with
  | none => exact ⟨e, rfl, hwf, rfl, rfl, fun _ _ => rfl⟩
  | some p =>
    obtain ⟨ev, c⟩ := p
    refine ⟨_, rfl, ?_, rfl, rfl, ?_⟩
    · constructor
      · exact hwf.fresh
      · intro t1 h hh
        show (Function.update e.chans ch c h).closed = false
        by_cases hc : h = ch
        · subst hc
          rw [Function.update_same, recv_closed _ _ _ hr]
          exact hwf.isOpen t1 h hh
        · rw [Function.update_noteq hc]
          exact hwf.isOpen t1 h hh
      · exact hwf.nodup
      · exact hwf.uniq
    · intro h hne
      show Function.update e.chans ch c h = e.chans h
      rw [Function.update_noteq hne]

theorem WF_step (e : EventEmitter) (hwf : e.WF) (op : EmitterOp) :
    ∃ e1, e.step op = .ok e1 ∧ e1.WF := by
  cases op with
  | subscribe t => exact ⟨_, rfl, WF_Subscribe e hwf t⟩
  | unsubscribe t ch =>
    obtain ⟨e1, h1, h2, _⟩ := WF_Unsubscribe e hwf t ch
    exact ⟨e1, h1, h2⟩
  | emit t o k =>
    obtain ⟨e1, h1, h2, _⟩ := WF_Emit e hwf t o k
    exact ⟨e1, h1, h2⟩
  | receive ch =>
    obtain ⟨e1, h1, h2, _⟩ := WF_receive e hwf ch
    exact ⟨e1, h1, h2⟩

theorem WF_run (ops : List EmitterOp) :
    ∀ (e : EventEmitter), e.WF → ∃ e1, e.run ops = .ok e1 ∧ e1.WF := by
  induction ops with
  | nil => exact fun e hwf => ⟨e, rfl, hwf⟩
  | cons op ops ih =>
    intro e hwf
    obtain ⟨e1, h1, h2⟩ := WF_step e hwf op
    obtain ⟨e2, h3, h4⟩ := ih e1 h2
    refine ⟨e2, ?_, h4⟩
    rw [EventEmitter.run, h1]
    exact h3

theorem received_cons (h : Nat) (e e1 : EventEmitter) (op : EmitterOp) (ops : List EmitterOp)
    (hstep : e.step op = .ok e1) :
    e.received h (op :: ops) = e.delivered h op ++ e1.received h ops := by
  rw [EventEmitter.received, hstep]

theorem run_cons (e e1 : EventEmitter) (op : EmitterOp) (ops : List EmitterOp)
    (hstep : e.step op = .ok e1) : e.run (op :: ops) = e1.run ops := by
  rw [EventEmitter.run, hstep]

theorem received_sublist_aux (t : String) (h : Nat) (ops : List EmitterOp) :
    ∀ (e : EventEmitter), e.WF → h ∈ e.listeners t → EmitterOp.unsubscribe t h ∉ ops →
      ∃ e1, e.run ops = .ok e1 ∧
        (e.received h ops ++ (e1.chans h).buf).Sublist ((e.chans h).buf ++ emittedFor t ops) := by
  induction ops with
  | nil =>
    intro e _ _ _
    refine ⟨e, rfl, ?_⟩
    simp [EventEmitter.received, emittedFor]
  | cons op ops ih =>
    intro e hwf hreg hnu
    have hnu1 : EmitterOp.unsubscribe t h ∉ ops := fun hm => hnu (List.mem_cons_of_mem _ hm)
    have hop : op ≠ EmitterOp.unsubscribe t h := fun heq => hnu (heq ▸ List.mem_cons_self _ _)
    cases op with
    | subscribe t1 =>
      have hstep : e.step (.subscribe t1) = .ok (e.Subscribe t1).2 := rfl
      have hreg1 : h ∈ (e.Subscribe t1).2.listeners t :=
        (mem_listeners_Subscribe e t1 t h).mpr (Or.inl hreg)
      have hch : (e.Subscribe t1).2.chans h = e.chans h := by
        have hlt := hwf.fresh t h hreg
        have hne : h ≠ e.nextChan := by omega
        show Function.update e.chans e.nextChan _ h = e.chans h
        rw [Function.update_noteq hne]
      obtain ⟨e2, hrun, hsub⟩ := ih _ (WF_Subscribe e hwf t1) hreg1 hnu1
      refine ⟨e2, by rw [run_cons e _ _ ops hstep]; exact hrun, ?_⟩
      rw [received_cons h e _ _ ops hstep]
      rw [hch] at hsub
      simpa [emittedFor, EventEmitter.delivered] using hsub
    | unsubscribe t1 c =>
      obtain ⟨e1, hun, hwf1, _, hmem1, hch1⟩ := WF_Unsubscribe e hwf t1 c
      have hstep : e.step (.unsubscribe t1 c) = .ok e1 := hun
      have hne : ¬ (t = t1 ∧ h = c) := by
        rintro ⟨rfl, rfl⟩
        exact hop rfl
      have hreg1 : h ∈ e1.listeners t := (hmem1 t h).mpr ⟨hreg, hne⟩
      have hch : e1.chans h = e.chans h := by
        by_cases hc : h = c
        · subst hc
          have hnm : h ∉ e.listeners t1 := by
            intro hm
            exact hne ⟨hwf.uniq t t1 h hreg hm, rfl⟩
          have : e1 = e := by
            have h2 := Unsubscribe_of_not_mem e t1 h hnm
            rw [hun] at h2
            exact Except.ok.inj h2
          rw [this]
        · exact hch1 h hc
      obtain ⟨e2, hrun, hsub⟩ := ih e1 hwf1 hreg1 hnu1
      refine ⟨e2, by rw [run_cons e _ _ ops hstep]; exact hrun, ?_⟩
      rw [received_cons h e _ _ ops hstep]
      rw [hch] at hsub
      simpa [emittedFor, EventEmitter.delivered] using hsub
    | emit t1 o k =>
      obtain ⟨e1, hem, hwf1, hl1, _, hch1⟩ := WF_Emit e hwf t1 o k
      have hstep : e.step (.emit t1 o k) = .ok e1 := hem
      have hreg1 : h ∈ e1.listeners t := by rw [hl1]; exact hreg
      obtain ⟨e2, hrun, hsub⟩ := ih e1 hwf1 hreg1 hnu1
      refine ⟨e2, by rw [run_cons e _ _ ops hstep]; exact hrun, ?_⟩
      rw [received_cons h e _ _ ops hstep]
      simp only [EventEmitter.delivered, List.nil_append]
      by_cases ht : t1 = t
      · subst ht
        have hem1 : emittedFor t1 (EmitterOp.emit t1 o k :: ops) =
            TableChangeEvent.mk t1 o k :: emittedFor t1 ops := by
          simp [emittedFor]
        rw [hem1]
        rw [hch1 h, if_pos hreg] at hsub
        unfold sendResult at hsub
        split at hsub
        · simpa using hsub
        · exact hsub.trans
            (List.Sublist.append (List.Sublist.refl _) (List.sublist_cons_self _ _))
      · have hem1 : emittedFor t (EmitterOp.emit t1 o k :: ops) = emittedFor t ops := by
          simp [emittedFor, ht]
        rw [hem1]
        have hnm : h ∉ e.listeners t1 := fun hm => ht (hwf.uniq t1 t h hm hreg)
        rw [hch1 h, if_neg hnm] at hsub
        exact hsub
    | receive c =>
      obtain ⟨e1, hstep, hwf1, hl1, _, hch1⟩ := WF_receive e hwf c
      have hreg1 : h ∈ e1.listeners t := by rw [hl1]; exact hreg
      obtain ⟨e2, hrun, hsub⟩ := ih e1 hwf1 hreg1 hnu1
      refine ⟨e2, by rw [run_cons e _ _ ops hstep]; exact hrun, ?_⟩
      rw [received_cons h e _ _ ops hstep]
      have hem1 : emittedFor t (EmitterOp.receive c :: ops) = emittedFor t ops := by
        simp [emittedFor]
      rw [hem1]
      by_cases hc : c = h
      · subst hc
        have hopen := hwf.isOpen t c hreg
        have hstep2 : e.step (.receive c) =
            match (e.chans c).recv with
            | none => .ok e
            | some (_, c1) =>
              .ok (EventEmitter.mk e.listeners (Function.update e.chans c c1) e.nextChan) := rfl
        cases hb : (e.chans c).buf with
        | nil =>
          have hr : (e.chans c).recv = none := by
            unfold Chan.recv
            rw [hb]
            simp [hopen]
          rw [hr] at hstep2
          have he : e1 = e := by
            rw [hstep] at hstep2
            exact Except.ok.inj hstep2
          rw [he, hb] at hsub
          rw [he]
          simpa [EventEmitter.delivered, hr] using hsub
        | cons ev rest =>
          have hr : (e.chans c).recv = some (ev, { e.chans c with buf := rest }) := by
            unfold Chan.recv
            rw [hb]
          rw [hr] at hstep2
          have he : e1 = EventEmitter.mk e.listeners
              (Function.update e.chans c { e.chans c with buf := rest }) e.nextChan := by
            rw [hstep] at hstep2
            exact Except.ok.inj hstep2
          have hb1 : (e1.chans c).buf = rest := by
            rw [he]
            simp
          rw [hb1] at hsub
          simp only [EventEmitter.delivered, if_true, hr, List.cons_append, List.nil_append]
          exact List.Sublist.cons₂ ev hsub
      · have hne : h ≠ c := fun heq => hc heq.symm
        rw [hch1 h hne] at hsub
        simpa [EventEmitter.delivered, hc] using hsub

theorem WF_twoListeners : twoListeners.WF where
  fresh := by
    intro t h hh
    unfold twoListeners at hh ⊢
    simp only at hh ⊢
    split at hh
    · simp only [List.mem_cons, List.mem_singleton, List.not_mem_nil, or_false] at hh
      omega
    · simp at hh
  isOpen := by
    intro t h _
    unfold twoListeners
    simp only
    split
    · rfl
    · split <;> rfl
  nodup := by
    intro t
    unfold twoListeners
    simp only
    split <;> simp
  uniq := by
    intro t t1 h h1 h2
    unfold twoListeners at h1 h2
    simp only at h1 h2
    split at h1
    · split at h2
      · rename_i a b
        rw [a, b]
      · simp at h2
    · simp at h1

theorem emitter_run_append (ops : List EmitterOp) :
    ∀ (e e1 : EventEmitter) (ops2 : List EmitterOp), e.run ops = .ok e1 →
      e.run (ops ++ ops2) = e1.run ops2 := by
  induction ops with
  | nil =>
    intro e e1 ops2 h
    rw [EventEmitter.run] at h
    rw [Except.ok.inj h]
    rfl
  | cons op ops ih =>
    intro e e1 ops2 h
    cases hstep : e.step op with
    | error msg =>
      rw [EventEmitter.run, hstep] at h
      exact absurd h (by simp)
    | ok e2 =>
      rw [run_cons e e2 op ops hstep] at h
      rw [List.cons_append, run_cons e e2 op _ hstep]
      exact ih e2 e1 ops2 h

theorem emits_fill (t o : String) (k : Option (List (String × String))) (h : Nat) (n : Nat) :
    ∀ (e : EventEmitter), e.WF → e.listeners t = [h] →
      (e.chans h).buf.length + n ≤ (e.chans h).cap →
      e.run (List.replicate n (EmitterOp.emit t o k)) =
        .ok (EventEmitter.mk e.listeners
          (Function.update e.chans h
            (Chan.mk ((e.chans h).buf ++ List.replicate n (TableChangeEvent.mk t o k))
              (e.chans h).cap (e.chans h).closed))
          e.nextChan) := by
  induction n with
  | zero =>
    intro e _ _ _
    simp [EventEmitter.run]
  | succ n ih =>
    intro e hwf hl hcap
    obtain ⟨e1, hem, hwf1, hl1, hn1, hch1⟩ := WF_Emit e hwf t o k
    have hstep : e.step (EmitterOp.emit t o k) = .ok e1 := hem
    have hc1 : e1.chans h =
        Chan.mk ((e.chans h).buf ++ [TableChangeEvent.mk t o k]) (e.chans h).cap
          (e.chans h).closed := by
      rw [hch1 h, hl, if_pos (List.mem_singleton_self h)]
      unfold sendResult
      rw [if_pos (by omega)]
    have hother : ∀ x, x ≠ h → e1.chans x = e.chans x := by
      intro x hx
      rw [hch1 x, hl, if_neg (by simpa using hx)]
    have hcap1 : (e1.chans h).buf.length + n ≤ (e1.chans h).cap := by
      rw [hc1]
      simp only [List.length_append, List.length_singleton]
      omega
    have hl2 : e1.listeners t = [h] := by
      rw [hl1]
      exact hl
    rw [List.replicate_succ, run_cons e e1 _ _ hstep, ih e1 hwf1 hl2 hcap1, hl1, hn1, hc1]
    congr 2
    funext x
    by_cases hx : x = h
    · subst hx
      rw [Function.update_same, Function.update_same]
      simp [List.replicate_succ]
    · rw [Function.update_noteq hx, Function.update_noteq hx, hother x hx]

theorem twoListeners_reachable :
    NewEventEmitter.run
      (EmitterOp.subscribe "t" ::
        (List.replicate chanBufferSize (EmitterOp.emit "t" "insert" none) ++
          [EmitterOp.subscribe "t"])) = .ok twoListeners := by
  have hstep : NewEventEmitter.step (EmitterOp.subscribe "t") =
      .ok (NewEventEmitter.Subscribe "t").2 := rfl
  have hwf0 : (NewEventEmitter.Subscribe "t").2.WF := WF_Subscribe _ WF_new "t"
  have hl0 : (NewEventEmitter.Subscribe "t").2.listeners "t" = [0] := by
    simp [EventEmitter.Subscribe, NewEventEmitter]
  have hc0 : (NewEventEmitter.Subscribe "t").2.chans 0 = makeChan chanBufferSize := by
    simp [EventEmitter.Subscribe, NewEventEmitter]
  have hcap0 : ((NewEventEmitter.Subscribe "t").2.chans 0).buf.length + chanBufferSize ≤
      ((NewEventEmitter.Subscribe "t").2.chans 0).cap := by
    rw [hc0]
    show 0 + chanBufferSize ≤ chanBufferSize
    omega
  have hfill := emits_fill "t" "insert" none 0 chanBufferSize (NewEventEmitter.Subscribe "t").2
    hwf0 hl0 hcap0
  rw [hc0] at hfill
  rw [run_cons _ _ _ _ hstep, emitter_run_append _ _ _ _ hfill]
  have hlast : ∀ e : EventEmitter, e.run [EmitterOp.subscribe "t"] = .ok (e.Subscribe "t").2 :=
    fun _ => rfl
  rw [hlast]
  apply congrArg Except.ok
  unfold twoListeners EventEmitter.Subscribe NewEventEmitter
  generalize chanBufferSize = size
  unfold makeChan
  simp only [EventEmitter.mk.injEq, List.nil_append, and_true]
  constructor
  · funext t
    by_cases ht : t = "t"
    · subst ht
      simp
    · simp [Function.update_noteq ht, ht]
  · funext x
    by_cases h0 : x = 0
    · subst h0
      simp
    · by_cases h1 : x = 1
      · subst h1
        simp
      · simp [Function.update_noteq h0, Function.update_noteq h1, h0, h1]

/-- C1: in every well-formed emitter state (every reachable state is one), `Emit(table,
op, key)` returns without panicking, and for every queue registered for `table`: when it
holds fewer events than its capacity, the event `(table, op, key)` is appended at its
tail and nothing else about it changes; when it is full, it is left exactly as it was. -/
theorem Emit_appends_or_drops (e : EventEmitter) (hwf : e.WF) (table op : String)
    (key : Option (List (String × String))) :
    ∃ e1, e.Emit table op key = .ok e1 ∧
      ∀ h ∈ e.listeners table,
        ((e.chans h).buf.length < (e.chans h).cap →
          e1.chans h =
            { e.chans h with buf := (e.chans h).buf ++ [TableChangeEvent.mk table op key] }) ∧
        ((e.chans h).cap ≤ (e.chans h).buf.length → e1.chans h = e.chans h) := by
  obtain ⟨e1, hem, _, _, _, hch⟩ := WF_Emit e hwf table op key
  refine ⟨e1, hem, ?_⟩
  intro h hh
  rw [hch h, if_pos hh]
  unfold sendResult
  constructor
  · intro hlt
    rw [if_pos hlt]
  · intro hge
    rw [if_neg (by omega)]

/-- Witness for C1: the state with a full and an empty queue on "t" is well formed, and
`Emit` on it returns with the stated effect on both queues. -/
theorem Emit_appends_or_drops_witness :
    twoListeners.WF ∧
    ∃ e1, twoListeners.Emit "t" "update" none = .ok e1 ∧
      ∀ h ∈ twoListeners.listeners "t",
        ((twoListeners.chans h).buf.length < (twoListeners.chans h).cap →
          e1.chans h =
            { twoListeners.chans h with
              buf := (twoListeners.chans h).buf ++ [TableChangeEvent.mk "t" "update" none] }) ∧
        ((twoListeners.chans h).cap ≤ (twoListeners.chans h).buf.length →
          e1.chans h = twoListeners.chans h) :=
  ⟨WF_twoListeners, Emit_appends_or_drops twoListeners WF_twoListeners "t" "update" none⟩

/-- C8: in every well-formed emitter state, `Emit(table, op, key)` returns and leaves the
registry (which handles are registered for which table) unchanged; every queue that is
not registered under `table`, in particular every queue registered under a different
table name, keeps its contents. -/
theorem Emit_frame (e : EventEmitter) (hwf : e.WF) (table op : String)
    (key : Option (List (String × String))) :
    ∃ e1, e.Emit table op key = .ok e1 ∧ e1.listeners = e.listeners ∧
      e1.nextChan = e.nextChan ∧
      (∀ h, h ∉ e.listeners table → e1.chans h = e.chans h) ∧
      (∀ t h, t ≠ table → h ∈ e.listeners t → e1.chans h = e.chans h) := by
  obtain ⟨e1, hem, _, hl, hn, hch⟩ := WF_Emit e hwf table op key
  refine ⟨e1, hem, hl, hn, ?_, ?_⟩
  · intro h hh
    rw [hch h, if_neg hh]
  · intro t h ht hh
    have hnm : h ∉ e.listeners table := fun hm => ht (hwf.uniq t table h hh hm)
    rw [hch h, if_neg hnm]

/-- Witness for C8: an emitter with one queue on "a" and one on "b"; `Emit` on "a"
leaves the queue of "b" and the registry as they were. -/
theorem Emit_frame_witness :
    ((NewEventEmitter.Subscribe "a").2.Subscribe "b").2.WF ∧
    ∃ e1, ((NewEventEmitter.Subscribe "a").2.Subscribe "b").2.Emit "a" "insert" none = .ok e1 ∧
      e1.listeners = ((NewEventEmitter.Subscribe "a").2.Subscribe "b").2.listeners ∧
      e1.nextChan = ((NewEventEmitter.Subscribe "a").2.Subscribe "b").2.nextChan ∧
      (∀ h, h ∉ ((NewEventEmitter.Subscribe "a").2.Subscribe "b").2.listeners "a" →
        e1.chans h = ((NewEventEmitter.Subscribe "a").2.Subscribe "b").2.chans h) ∧
      (∀ t h, t ≠ "a" → h ∈ ((NewEventEmitter.Subscribe "a").2.Subscribe "b").2.listeners t →
        e1.chans h = ((NewEventEmitter.Subscribe "a").2.Subscribe "b").2.chans h) :=
  ⟨WF_Subscribe _ (WF_Subscribe _ WF_new "a") "b",
   Emit_frame _ (WF_Subscribe _ (WF_Subscribe _ WF_new "a") "b") "a" "insert" none⟩

theorem WF_of_run (ops : List EmitterOp) (e : EventEmitter)
    (h : NewEventEmitter.run ops = .ok e) : e.WF := by
  obtain ⟨e1, h1, h2⟩ := WF_run ops NewEventEmitter WF_new
  rw [h] at h1
  rw [Except.ok.inj h1]
  exact h2

theorem Emit_no_listeners (e : EventEmitter) (t o : String)
    (k : Option (List (String × String))) (h : (e.listeners t).length = 0) :
    e.Emit t o k = .ok e := by
  unfold EventEmitter.Emit
  simp only [h, if_true]

theorem count_aux (ops : List EmitterOp) :
    ∀ (e : EventEmitter) (live : List (Nat × String)), e.WF → live.Nodup →
      (∀ t h, h ∈ e.listeners t ↔ (h, t) ∈ live) →
      disciplined e.nextChan live ops = true →
      ∃ e1, e.run ops = .ok e1 ∧
        ∀ t, (e1.listeners t).length + unsubscribeCount t ops =
          (e.listeners t).length + subscribeCount t ops := by
  induction ops with
  | nil =>
    intro e live _ _ _ _
    exact ⟨e, rfl, fun t => by simp [subscribeCount, unsubscribeCount]⟩
  | cons op ops ih =>
    intro e live hwf hnd hlive hd
    cases op with
    | subscribe t0 =>
      have hstep : e.step (.subscribe t0) = .ok (e.Subscribe t0).2 := rfl
      have hd1 : disciplined (e.nextChan + 1) ((e.nextChan, t0) :: live) ops = true := hd
      have hnew : (e.nextChan, t0) ∉ live := by
        intro hm
        have := hwf.fresh t0 e.nextChan ((hlive t0 e.nextChan).mpr hm)
        omega
      have hlive1 : ∀ t h, h ∈ (e.Subscribe t0).2.listeners t ↔
          (h, t) ∈ (e.nextChan, t0) :: live := by
        intro t h
        rw [mem_listeners_Subscribe, List.mem_cons, hlive t h, Prod.mk.injEq]
        constructor
        · rintro (a | ⟨a, b⟩)
          · exact Or.inr a
          · exact Or.inl ⟨b, a⟩
        · rintro (⟨a, b⟩ | a)
          · exact Or.inr ⟨b, a⟩
          · exact Or.inl a
      obtain ⟨e2, hrun, hcnt⟩ :=
        ih (e.Subscribe t0).2 _ (WF_Subscribe e hwf t0) (List.nodup_cons.mpr ⟨hnew, hnd⟩)
          hlive1 hd1
      refine ⟨e2, by rw [run_cons e _ _ ops hstep]; exact hrun, ?_⟩
      intro t
      have h1 := hcnt t
      have hlen : ((e.Subscribe t0).2.listeners t).length =
          (e.listeners t).length + (if t0 = t then 1 else 0) := by
        show (Function.update e.listeners t0 (e.listeners t0 ++ [e.nextChan]) t).length = _
        by_cases ht : t0 = t
        · subst ht
          simp
        · have ht1 : t ≠ t0 := fun a => ht a.symm
          simp [Function.update_noteq ht1, ht]
      have hs : subscribeCount t (EmitterOp.subscribe t0 :: ops) =
          (if t0 = t then 1 else 0) + subscribeCount t ops := rfl
      have hu : unsubscribeCount t (EmitterOp.subscribe t0 :: ops) =
          unsubscribeCount t ops := rfl
      rw [hs, hu]
      omega
    | unsubscribe t0 h0 =>
      have hd0 : (decide ((h0, t0) ∈ live) && disciplined e.nextChan (live.erase (h0, t0)) ops)
          = true := hd
      rw [Bool.and_eq_true, decide_eq_true_eq] at hd0
      have hmem : h0 ∈ e.listeners t0 := (hlive t0 h0).mpr hd0.1
      obtain ⟨e1, hun, hwf1, hn1, hmem1, _⟩ := WF_Unsubscribe e hwf t0 h0
      have hstep : e.step (.unsubscribe t0 h0) = .ok e1 := hun
      have hl1 : e1.listeners = Function.update e.listeners t0 ((e.listeners t0).erase h0) := by
        have h2 := Unsubscribe_of_mem e hwf t0 h0 hmem
        rw [hun] at h2
        rw [Except.ok.inj h2]
      have hlive1 : ∀ t h, h ∈ e1.listeners t ↔ (h, t) ∈ live.erase (h0, t0) := by
        intro t h
        rw [hmem1 t h, hnd.mem_erase_iff, hlive t h]
        constructor
        · rintro ⟨a, b⟩
          refine ⟨fun c => b ?_, a⟩
          rw [Prod.mk.injEq] at c
          exact ⟨c.2, c.1⟩
        · rintro ⟨a, b⟩
          refine ⟨b, fun c => a ?_⟩
          rw [c.1, c.2]
      have hd1 : disciplined e1.nextChan (live.erase (h0, t0)) ops = true := by
        rw [hn1]
        exact hd0.2
      obtain ⟨e2, hrun, hcnt⟩ := ih e1 _ hwf1 (hnd.erase _) hlive1 hd1
      refine ⟨e2, by rw [run_cons e _ _ ops hstep]; exact hrun, ?_⟩
      intro t
      have h1 := hcnt t
      have hlen : (e1.listeners t).length + (if t0 = t then 1 else 0) =
          (e.listeners t).length := by
        rw [hl1]
        by_cases ht : t0 = t
        · subst ht
          have hpos := List.length_pos_of_mem hmem
          rw [Function.update_same, List.length_erase_of_mem hmem, if_pos rfl]
          omega
        · have ht1 : t ≠ t0 := fun a => ht a.symm
          simp [Function.update_noteq ht1, ht]
      have hs : subscribeCount t (EmitterOp.unsubscribe t0 h0 :: ops) =
          subscribeCount t ops := rfl
      have hu : unsubscribeCount t (EmitterOp.unsubscribe t0 h0 :: ops) =
          (if t0 = t then 1 else 0) + unsubscribeCount t ops := rfl
      rw [hs, hu]
      omega
    | emit t0 o k =>
      obtain ⟨e1, hem, hwf1, hl1, hn1, _⟩ := WF_Emit e hwf t0 o k
      have hstep : e.step (.emit t0 o k) = .ok e1 := hem
      have hd1 : disciplined e1.nextChan live ops = true := by
        rw [hn1]
        exact hd
      obtain ⟨e2, hrun, hcnt⟩ := ih e1 live hwf1 hnd (by rw [hl1]; exact hlive) hd1
      refine ⟨e2, by rw [run_cons e _ _ ops hstep]; exact hrun, ?_⟩
      intro t
      have h1 := hcnt t
      rw [hl1] at h1
      exact h1
    | receive c =>
      obtain ⟨e1, hstep, hwf1, hl1, hn1, _⟩ := WF_receive e hwf c
      have hd1 : disciplined e1.nextChan live ops = true := by
        rw [hn1]
        exact hd
      obtain ⟨e2, hrun, hcnt⟩ := ih e1 live hwf1 hnd (by rw [hl1]; exact hlive) hd1
      refine ⟨e2, by rw [run_cons e _ _ ops hstep]; exact hrun, ?_⟩
      intro t
      have h1 := hcnt t
      rw [hl1] at h1
      exact h1

/-- C6: for every sequence of calls on a new emitter in which each `Unsubscribe(t, h)`
names a handle returned by an earlier `Subscribe(t)` and not unsubscribed before (the
sequence may also contain `Emit`s and receives), the sequence runs without panic and, for
every table, the number of registered queues equals the number of `Subscribe` calls minus
the number of `Unsubscribe` calls for that table. In any emitter state, `Emit` on a
table with zero registered queues returns and leaves the state unchanged. -/
theorem listeners_count (ops : List EmitterOp) (hd : disciplined 0 [] ops = true) :
    (∃ e, NewEventEmitter.run ops = .ok e ∧
      ∀ t, unsubscribeCount t ops ≤ subscribeCount t ops ∧
        (e.listeners t).length = subscribeCount t ops - unsubscribeCount t ops) ∧
    (∀ (e0 : EventEmitter) (t o : String) (k : Option (List (String × String))),
      (e0.listeners t).length = 0 → e0.Emit t o k = .ok e0) := by
  refine ⟨?_, fun e0 t o k h => Emit_no_listeners e0 t o k h⟩
  obtain ⟨e, hrun, hcnt⟩ :=
    count_aux ops NewEventEmitter [] WF_new List.nodup_nil (by simp [NewEventEmitter]) hd
  refine ⟨e, hrun, fun t => ?_⟩
  have h1 := hcnt t
  have h0 : (NewEventEmitter.listeners t).length = 0 := rfl
  omega

/-- Witness for C6: two subscribes and one unsubscribe on "a", interleaved with an emit. -/
theorem listeners_count_witness :
    disciplined 0 []
      [.subscribe "a", .subscribe "a", .emit "a" "insert" none, .unsubscribe "a" 0] = true ∧
    ((∃ e, NewEventEmitter.run
        [.subscribe "a", .subscribe "a", .emit "a" "insert" none, .unsubscribe "a" 0] = .ok e ∧
      ∀ t, unsubscribeCount t
            [.subscribe "a", .subscribe "a", .emit "a" "insert" none, .unsubscribe "a" 0] ≤
          subscribeCount t
            [.subscribe "a", .subscribe "a", .emit "a" "insert" none, .unsubscribe "a" 0] ∧
        (e.listeners t).length =
          subscribeCount t
            [.subscribe "a", .subscribe "a", .emit "a" "insert" none, .unsubscribe "a" 0] -
          unsubscribeCount t
            [.subscribe "a", .subscribe "a", .emit "a" "insert" none, .unsubscribe "a" 0]) ∧
    (∀ (e0 : EventEmitter) (t o : String) (k : Option (List (String × String))),
      (e0.listeners t).length = 0 → e0.Emit t o k = .ok e0)) :=
  ⟨by decide, listeners_count _ (by decide)⟩

theorem recv_buf_suffix (c c1 : Chan) (ev : TableChangeEvent) (h : c.recv = some (ev, c1)) :
    c1.buf <:+ c.buf := by
  unfold Chan.recv at h
  split at h
  · rename_i ev0 rest hb
    simp only [Option.some.injEq, Prod.mk.injEq] at h
    rw [← h.2, hb]
    exact List.suffix_cons ev0 rest
  · split at h
    · simp only [Option.some.injEq, Prod.mk.injEq] at h
      rw [← h.2]
    · exact absurd h (by simp)

theorem receive_buf_suffix (e e1 : EventEmitter) (ch : Nat)
    (hstep : e.step (.receive ch) = .ok e1) : (e1.chans ch).buf <:+ (e.chans ch).buf := by
  have hstep2 : e.step (.receive ch) =
      match (e.chans ch).recv with
      | none => .ok e
      | some (_, c) => .ok (EventEmitter.mk e.listeners (Function.update e.chans ch c) e.nextChan) :=
    rfl
  rw [hstep] at hstep2
  cases hr : (e.chans ch).recv with
  | none =>
    rw [hr] at hstep2
    rw [Except.ok.inj hstep2]
  | some p =>
    obtain ⟨ev, c⟩ := p
    rw [hr] at hstep2
    rw [Except.ok.inj hstep2]
    show (Function.update e.chans ch c ch).buf <:+ _
    rw [Function.update_same]
    exact recv_buf_suffix _ _ _ hr

theorem unregistered_run (h : Nat) (ops : List EmitterOp) :
    ∀ (e : EventEmitter), e.WF → h < e.nextChan → (∀ t, h ∉ e.listeners t) →
      ∃ e2, e.run ops = .ok e2 ∧ e2.WF ∧ h < e2.nextChan ∧ (∀ t, h ∉ e2.listeners t) ∧
        (e2.chans h).buf <:+ (e.chans h).buf := by
  induction ops with
  | nil => exact fun e hwf hlt hun => ⟨e, rfl, hwf, hlt, hun, List.suffix_refl _⟩
  | cons op ops ih =>
    intro e hwf hlt hun
    have key : ∃ e1, e.step op = .ok e1 ∧ e1.WF ∧ h < e1.nextChan ∧
        (∀ t, h ∉ e1.listeners t) ∧ (e1.chans h).buf <:+ (e.chans h).buf := by
      cases op with
      | subscribe t0 =>
        refine ⟨_, rfl, WF_Subscribe e hwf t0, ?_, ?_, ?_⟩
        · show h < e.nextChan + 1
          omega
        · intro t hm
          rcases (mem_listeners_Subscribe e t0 t h).mp hm with a | ⟨_, a⟩
          · exact hun t a
          · omega
        · have hne : h ≠ e.nextChan := by omega
          show (Function.update e.chans e.nextChan _ h).buf <:+ _
          rw [Function.update_noteq hne]
      | unsubscribe t0 c =>
        obtain ⟨e1, hu1, hwf1, hn1, hmem1, hch1⟩ := WF_Unsubscribe e hwf t0 c
        refine ⟨e1, hu1, hwf1, by rw [hn1]; exact hlt, ?_, ?_⟩
        · intro t hm
          exact hun t ((hmem1 t h).mp hm).1
        · by_cases hc : h = c
          · subst hc
            have h2 := Unsubscribe_of_not_mem e t0 h (hun t0)
            rw [hu1] at h2
            rw [Except.ok.inj h2]
          · rw [hch1 h hc]
      | emit t0 o k =>
        obtain ⟨e1, hem, hwf1, hl1, hn1, hch1⟩ := WF_Emit e hwf t0 o k
        refine ⟨e1, hem, hwf1, by rw [hn1]; exact hlt, by rw [hl1]; exact hun, ?_⟩
        rw [hch1 h, if_neg (hun t0)]
      | receive c =>
        obtain ⟨e1, hst, hwf1, hl1, hn1, hch1⟩ := WF_receive e hwf c
        refine ⟨e1, hst, hwf1, by rw [hn1]; exact hlt, by rw [hl1]; exact hun, ?_⟩
        by_cases hc : h = c
        · subst hc
          exact receive_buf_suffix e e1 h hst
        · rw [hch1 h hc]
    obtain ⟨e1, hstep, hwf1, hlt1, hun1, hsuf1⟩ := key
    obtain ⟨e2, hrun, hwf2, hlt2, hun2, hsuf2⟩ := ih e1 hwf1 hlt1 hun1
    exact ⟨e2, by rw [run_cons e _ _ ops hstep]; exact hrun, hwf2, hlt2, hun2,
      hsuf2.trans hsuf1⟩

/-- C7: for a handle `h` registered for table `t` in a well-formed emitter state,
`Unsubscribe(t, h)` returns; a second `Unsubscribe(t, h)` returns too (the channel is not
closed again) and leaves the emitter state exactly as the first call left it; and
whatever calls follow the first `Unsubscribe`, they run without panic, the queue of `h`
never gains an event (its contents stay a suffix of what it held), and every `Emit`
issued then leaves the queue of `h` as it is. -/
theorem Unsubscribe_twice (e : EventEmitter) (hwf : e.WF) (t : String) (h : Nat)
    (hreg : h ∈ e.listeners t) :
    ∃ e1, e.Unsubscribe t h = .ok e1 ∧ e1.Unsubscribe t h = .ok e1 ∧
      ∀ ops, ∃ e2, e1.run ops = .ok e2 ∧ (e2.chans h).buf <:+ (e.chans h).buf ∧
        ∀ t1 o k, ∃ e3, e2.Emit t1 o k = .ok e3 ∧ e3.chans h = e2.chans h := by
  obtain ⟨e1, hu1, hwf1, hn1, hmem1, _⟩ := WF_Unsubscribe e hwf t h
  have hun1 : ∀ t1, h ∉ e1.listeners t1 := by
    intro t1 hm
    have h2 := (hmem1 t1 h).mp hm
    exact h2.2 ⟨hwf.uniq t1 t h h2.1 hreg, rfl⟩
  have hlt1 : h < e1.nextChan := by
    rw [hn1]
    exact hwf.fresh t h hreg
  have hbuf : (e1.chans h).buf = (e.chans h).buf := by
    have h2 := Unsubscribe_of_mem e hwf t h hreg
    rw [hu1] at h2
    rw [Except.ok.inj h2]
    show (Function.update e.chans h _ h).buf = _
    rw [Function.update_same]
  refine ⟨e1, hu1, Unsubscribe_of_not_mem e1 t h (hun1 t), ?_⟩
  intro ops
  obtain ⟨e2, hrun, hwf2, _, hun2, hsuf⟩ := unregistered_run h ops e1 hwf1 hlt1 hun1
  refine ⟨e2, hrun, by rw [← hbuf]; exact hsuf, ?_⟩
  intro t1 o k
  obtain ⟨e3, hem, _, _, _, hch⟩ := WF_Emit e2 hwf2 t1 o k
  exact ⟨e3, hem, by rw [hch h, if_neg (hun2 t1)]⟩

/-- Witness for C7: the handle returned by the first `Subscribe("a")` on a new emitter. -/
theorem Unsubscribe_twice_witness :
    (NewEventEmitter.Subscribe "a").2.WF ∧ 0 ∈ (NewEventEmitter.Subscribe "a").2.listeners "a" ∧
    ∃ e1, (NewEventEmitter.Subscribe "a").2.Unsubscribe "a" 0 = .ok e1 ∧
      e1.Unsubscribe "a" 0 = .ok e1 ∧
      ∀ ops, ∃ e2, e1.run ops = .ok e2 ∧
        (e2.chans 0).buf <:+ ((NewEventEmitter.Subscribe "a").2.chans 0).buf ∧
        ∀ t1 o k, ∃ e3, e2.Emit t1 o k = .ok e3 ∧ e3.chans 0 = e2.chans 0 :=
  ⟨WF_Subscribe _ WF_new "a", by simp [EventEmitter.Subscribe, NewEventEmitter],
   Unsubscribe_twice _ (WF_Subscribe _ WF_new "a") "a" 0
     (by simp [EventEmitter.Subscribe, NewEventEmitter])⟩

/-- C5: let `h` be the handle that `Subscribe(t)` returns in a well-formed emitter state.
For every sequence of calls that follows (emits on any table, receives on any handle,
other subscribes and unsubscribes) during which `h` stays registered, the calls run
without panic and the events that the receives on `h` obtain, in order, form a
subsequence of the events emitted for `t`, in publish order; so do the received events
followed by those still queued. -/
theorem received_in_publish_order (e : EventEmitter) (hwf : e.WF) (t : String)
    (ops : List EmitterOp) (hnu : EmitterOp.unsubscribe t (e.Subscribe t).1 ∉ ops) :
    ∃ e1, (e.Subscribe t).2.run ops = .ok e1 ∧
      ((e.Subscribe t).2.received (e.Subscribe t).1 ops).Sublist (emittedFor t ops) ∧
      ((e.Subscribe t).2.received (e.Subscribe t).1 ops ++
        (e1.chans (e.Subscribe t).1).buf).Sublist (emittedFor t ops) := by
  have hreg : (e.Subscribe t).1 ∈ (e.Subscribe t).2.listeners t :=
    (mem_listeners_Subscribe e t t _).mpr (Or.inr ⟨rfl, rfl⟩)
  obtain ⟨e1, hrun, hsub⟩ :=
    received_sublist_aux t (e.Subscribe t).1 ops (e.Subscribe t).2 (WF_Subscribe e hwf t)
      hreg hnu
  have hb : ((e.Subscribe t).2.chans (e.Subscribe t).1).buf = [] := by
    show (Function.update e.chans e.nextChan (makeChan chanBufferSize) e.nextChan).buf = []
    rw [Function.update_same]
    rfl
  rw [hb, List.nil_append] at hsub
  exact ⟨e1, hrun, (List.sublist_append_left _ _).trans hsub, hsub⟩

/-- Witness for C5: on a new emitter, a subscriber of "a" receives between emits on "a"
and on "b". -/
theorem received_in_publish_order_witness :
    NewEventEmitter.WF ∧
    EmitterOp.unsubscribe "a" (NewEventEmitter.Subscribe "a").1 ∉
      [EmitterOp.emit "a" "insert" none, .receive 0, .emit "b" "insert" none,
        .emit "a" "update" none, .receive 0] ∧
    ∃ e1, (NewEventEmitter.Subscribe "a").2.run
        [EmitterOp.emit "a" "insert" none, .receive 0, .emit "b" "insert" none,
          .emit "a" "update" none, .receive 0] = .ok e1 ∧
      ((NewEventEmitter.Subscribe "a").2.received (NewEventEmitter.Subscribe "a").1
        [EmitterOp.emit "a" "insert" none, .receive 0, .emit "b" "insert" none,
          .emit "a" "update" none, .receive 0]).Sublist
        (emittedFor "a" [EmitterOp.emit "a" "insert" none, .receive 0,
          .emit "b" "insert" none, .emit "a" "update" none, .receive 0]) ∧
      ((NewEventEmitter.Subscribe "a").2.received (NewEventEmitter.Subscribe "a").1
        [EmitterOp.emit "a" "insert" none, .receive 0, .emit "b" "insert" none,
          .emit "a" "update" none, .receive 0] ++
        (e1.chans (NewEventEmitter.Subscribe "a").1).buf).Sublist
        (emittedFor "a" [EmitterOp.emit "a" "insert" none, .receive 0,
          .emit "b" "insert" none, .emit "a" "update" none, .receive 0]) :=
  ⟨WF_new, by decide, received_in_publish_order NewEventEmitter WF_new "a" _ (by decide)⟩

/-! ## Properties of the registry -/

theorem setAt_update (m : Int → Option (Finset Nat)) (r0 r : Int) (v : Option (Finset Nat)) :
    setAt (Function.update m r0 v) r =
      if r = r0 then (match v with | none => ∅ | some s => s) else setAt m r := by
  unfold setAt
  by_cases h : r = r0
  · subst h
    simp
  · simp [Function.update_noteq h, h]

theorem mem_subscribeRanges (subID : Nat) :
    ∀ (ranges : List Int) (m : Int → Option (Finset Nat)) (r : Int) (x : Nat),
      x ∈ setAt (subscribeRanges subID ranges m) r ↔
        x ∈ setAt m r ∨ (x = subID ∧ r ∈ ranges)
  | [], m, r, x => by simp [subscribeRanges]
  | r0 :: rest, m, r, x => by
    rw [subscribeRanges]
    rw [mem_subscribeRanges subID rest _ r x, setAt_update]
    have hset : (match m r0 with | none => (∅ : Finset Nat) | some s => s) = setAt m r0 := rfl
    rw [hset]
    by_cases h : r = r0
    · subst h
      simp only [if_true, Finset.mem_insert, List.mem_cons, true_or, and_true]
      tauto
    · simp only [h, if_false, List.mem_cons, false_or]

theorem mem_unsubscribeRanges (subID : Nat) :
    ∀ (ranges : List Int) (m : Int → Option (Finset Nat)) (r : Int) (x : Nat),
      x ∈ setAt (unsubscribeRanges subID ranges m) r ↔
        x ∈ setAt m r ∧ ¬ (x = subID ∧ r ∈ ranges)
  | [], m, r, x => by simp [unsubscribeRanges]
  | r0 :: rest, m, r, x => by
    rw [unsubscribeRanges]
    rw [mem_unsubscribeRanges subID rest _ r x]
    have hm1 : ∀ y, y ∈ setAt
        (match m r0 with
          | none => m
          | some s => Function.update m r0 (some (s.erase subID))) r ↔
        y ∈ setAt m r ∧ ¬ (y = subID ∧ r = r0) := by
      intro y
      cases hc : m r0 with
      | none =>
        simp only
        by_cases h : r = r0
        · subst h
          simp [setAt, hc]
        · simp [h]
      | some s =>
        simp only
        rw [setAt_update]
        by_cases h : r = r0
        · subst h
          simp only [if_true, Finset.mem_erase, and_true]
          simp only [setAt, hc]
          tauto
        · simp [h]
    have hm2 : ∀ (m1 : Int → Option (Finset Nat)) (y : Nat),
        y ∈ setAt (if (match m1 r0 with | none => 0 | some s => s.card) = 0
          then Function.update m1 r0 none else m1) r ↔ y ∈ setAt m1 r := by
      intro m1 y
      split
      · rename_i hz
        rw [setAt_update]
        by_cases h : r = r0
        · subst h
          simp only [if_true]
          cases hc : m1 r with
          | none => simp [setAt, hc]
          | some s =>
            rw [hc] at hz
            simp only [Finset.card_eq_zero] at hz
            simp [setAt, hc, hz]
        · simp [h]
      · rfl
    rw [hm2, hm1]
    simp only [List.mem_cons]
    tauto

theorem registry_run_append (ops : List RegistryOp) :
    ∀ (sm : SubscriptionManager) (op : RegistryOp),
      sm.run (ops ++ [op]) = (sm.run ops).step op := by
  induction ops with
  | nil => exact fun _ _ => rfl
  | cons o ops ih =>
    intro sm op
    exact ih (sm.step o) op

theorem drawnIds_append (ops : List RegistryOp) (ops2 : List RegistryOp) :
    drawnIds (ops ++ ops2) = drawnIds ops ++ drawnIds ops2 := by
  induction ops with
  | nil => rfl
  | cons o ops ih =>
    cases o with
    | subscribe a b c => simp [drawnIds, ih]
    | unsubscribe a => simpa [drawnIds] using ih

theorem declaredRanges_append (subID : Nat) (ops : List RegistryOp) (ops2 : List RegistryOp) :
    declaredRanges subID (ops ++ ops2) =
      if subID ∈ drawnIds ops then declaredRanges subID ops else declaredRanges subID ops2 := by
  induction ops with
  | nil => simp [drawnIds]
  | cons o ops ih =>
    cases o with
    | subscribe a b c =>
      by_cases h : a = subID
      · simp [declaredRanges, drawnIds, h]
      · have h1 : ¬ subID = a := fun x => h x.symm
        simp [declaredRanges, drawnIds, h, h1, ih]
    | unsubscribe a => simpa [declaredRanges, drawnIds] using ih

theorem declaredRanges_of_not_drawn (subID : Nat) (ops : List RegistryOp)
    (h : subID ∉ drawnIds ops) : declaredRanges subID ops = [] := by
  induction ops with
  | nil => rfl
  | cons o ops ih =>
    cases o with
    | subscribe a b c =>
      simp only [drawnIds, List.mem_cons, not_or] at h
      have h1 : ¬ a = subID := fun x => h.1 x.symm
      simp [declaredRanges, h1, ih h.2]
    | unsubscribe a =>
      simp only [drawnIds] at h
      simpa [declaredRanges] using ih h

theorem registry_inv (ops : List RegistryOp) :
    (drawnIds ops).Nodup → RegistryInv (NewSubscriptionManager.run ops) ops := by
  induction ops using List.reverseRecOn with
  | nil =>
    intro _
    constructor
    · intro id p h
      simp [SubscriptionManager.run, NewSubscriptionManager] at h
    · intro id r
      simp [SubscriptionManager.run, NewSubscriptionManager, SubscriptionManager.rangeSet,
        setAt]
  | append_singleton ops op ih =>
    intro hnd
    rw [drawnIds_append] at hnd
    have hinv := ih (List.Nodup.of_append_left hnd)
    rw [registry_run_append]
    generalize NewSubscriptionManager.run ops = sm at hinv
    cases op with
    | subscribe newID stmt ranges =>
      have hnew : newID ∉ drawnIds ops := by
        intro hm
        have hdis := List.disjoint_of_nodup_append hnd
        exact hdis hm (by simp [drawnIds])
      have hnone : sm.subscriptions newID = none := by
        cases hs : sm.subscriptions newID with
        | none => rfl
        | some p => exact absurd (hinv.live newID p hs).2.1 hnew
      have hdecl_new : declaredRanges newID (ops ++ [RegistryOp.subscribe newID stmt ranges]) =
          ranges := by
        rw [declaredRanges_append, if_neg hnew]
        simp [declaredRanges]
      have hdecl_other : ∀ id, id ≠ newID →
          declaredRanges id (ops ++ [RegistryOp.subscribe newID stmt ranges]) =
            declaredRanges id ops := by
        intro id hne
        rw [declaredRanges_append]
        split
        · rfl
        · rename_i hnd1
          have hne1 : ¬ newID = id := fun x => hne x.symm
          rw [declaredRanges_of_not_drawn id ops hnd1]
          simp [declaredRanges, hne1]
      constructor
      · intro id p hs
        change Function.update sm.subscriptions newID (some sm.nextPtr) id = some p at hs
        show p < sm.nextPtr + 1 ∧ _ ∧
          (Function.update sm.heap sm.nextPtr _ p).affectedRanges = _
        by_cases hid : id = newID
        · subst hid
          rw [Function.update_same] at hs
          have hp : p = sm.nextPtr := (Option.some.inj hs).symm
          subst hp
          rw [Function.update_same, hdecl_new, drawnIds_append]
          refine ⟨by omega, ?_, rfl⟩
          simp [drawnIds]
        · rw [Function.update_noteq hid] at hs
          obtain ⟨h1, h2, h3⟩ := hinv.live id p hs
          have hne : p ≠ sm.nextPtr := by omega
          rw [Function.update_noteq hne, hdecl_other id hid, drawnIds_append]
          exact ⟨by omega, List.mem_append_left _ h2, h3⟩
      · intro id r
        show id ∈ setAt (subscribeRanges newID ranges sm.rangeToSubs) r ↔
          (Function.update sm.subscriptions newID (some sm.nextPtr) id).isSome = true ∧ _
        rw [mem_subscribeRanges]
        have hold := hinv.index id r
        unfold SubscriptionManager.rangeSet at hold
        rw [hold]
        by_cases hid : id = newID
        · subst hid
          rw [Function.update_same, hdecl_new, hnone]
          simp
        · rw [Function.update_noteq hid, hdecl_other id hid]
          simp [hid]
    | unsubscribe subID =>
      have hdecl : ∀ id, declaredRanges id (ops ++ [RegistryOp.unsubscribe subID]) =
          declaredRanges id ops := by
        intro id
        rw [declaredRanges_append]
        split
        · rfl
        · rename_i hnd1
          rw [declaredRanges_of_not_drawn id ops hnd1]
          rfl
      have hdrawn : drawnIds (ops ++ [RegistryOp.unsubscribe subID]) = drawnIds ops := by
        rw [drawnIds_append]
        simp [drawnIds]
      cases hs : sm.subscriptions subID with
      | none =>
        have hstep : sm.step (.unsubscribe subID) = sm := by
          show sm.Unsubscribe subID = sm
          unfold SubscriptionManager.Unsubscribe
          rw [hs]
        rw [hstep]
        constructor
        · intro id p h
          rw [hdecl, hdrawn]
          exact hinv.live id p h
        · intro id r
          rw [hdecl]
          exact hinv.index id r
      | some ptr =>
        have hstep : sm.step (.unsubscribe subID) =
            SubscriptionManager.mk (Function.update sm.subscriptions subID none)
              (unsubscribeRanges subID (sm.heap ptr).affectedRanges sm.rangeToSubs)
              (Function.update sm.heap ptr { sm.heap ptr with active := false })
              sm.nextPtr := by
          show sm.Unsubscribe subID = _
          unfold SubscriptionManager.Unsubscribe
          rw [hs]
        rw [hstep]
        obtain ⟨_, _, hptr⟩ := hinv.live subID ptr hs
        constructor
        · intro id p h
          change Function.update sm.subscriptions subID none id = some p at h
          show p < sm.nextPtr ∧ _ ∧ (Function.update sm.heap ptr _ p).affectedRanges = _
          rw [hdecl, hdrawn]
          by_cases hid : id = subID
          · subst hid
            rw [Function.update_same] at h
            exact absurd h (by simp)
          · rw [Function.update_noteq hid] at h
            obtain ⟨h1, h2, h3⟩ := hinv.live id p h
            refine ⟨h1, h2, ?_⟩
            by_cases hp : p = ptr
            · subst hp
              rw [Function.update_same]
              exact h3
            · rw [Function.update_noteq hp]
              exact h3
        · intro id r
          show id ∈ setAt (unsubscribeRanges subID (sm.heap ptr).affectedRanges sm.rangeToSubs) r ↔
            (Function.update sm.subscriptions subID none id).isSome = true ∧ _
          rw [mem_unsubscribeRanges, hdecl, hptr]
          have hold := hinv.index id r
          unfold SubscriptionManager.rangeSet at hold
          rw [hold]
          by_cases hid : id = subID
          · subst hid
            rw [Function.update_same]
            simp
          · rw [Function.update_noteq hid]
            simp [hid]

/-- C2 (as amended): after any sequence of `Subscribe` and `Unsubscribe` calls on a new
registry in which every `Subscribe` draws an id not drawn before, for every id and every
range `r`: the id is a member of `rangeToSubs[r]` if and only if the id is a key of the
primary map and `r` is in the range list it declared. Hence a live id is in the reverse
index of every range it declared, no id is in the reverse index of a range it did not
declare, and for an id whose declared list is not empty, being a key of the primary map
is equivalent to being in the reverse index of every declared range. -/
theorem registry_index_iff (ops : List RegistryOp) (hfresh : (drawnIds ops).Nodup)
    (id : Nat) :
    (∀ r, id ∈ (NewSubscriptionManager.run ops).rangeSet r ↔
      ((NewSubscriptionManager.run ops).subscriptions id).isSome = true ∧
        r ∈ declaredRanges id ops) ∧
    (((NewSubscriptionManager.run ops).subscriptions id).isSome = true →
      ∀ r ∈ declaredRanges id ops, id ∈ (NewSubscriptionManager.run ops).rangeSet r) ∧
    (∀ r, r ∉ declaredRanges id ops → id ∉ (NewSubscriptionManager.run ops).rangeSet r) ∧
    (declaredRanges id ops ≠ [] →
      (((NewSubscriptionManager.run ops).subscriptions id).isSome = true ↔
        ∀ r ∈ declaredRanges id ops, id ∈ (NewSubscriptionManager.run ops).rangeSet r)) := by
  have hinv := registry_inv ops hfresh
  refine ⟨fun r => hinv.index id r, ?_, ?_, ?_⟩
  · intro hs r hr
    exact (hinv.index id r).mpr ⟨hs, hr⟩
  · intro r hr hm
    exact hr ((hinv.index id r).mp hm).2
  · intro hne
    constructor
    · intro hs r hr
      exact (hinv.index id r).mpr ⟨hs, hr⟩
    · intro hall
      obtain ⟨r, hr⟩ := List.exists_mem_of_ne_nil _ hne
      exact ((hinv.index id r).mp (hall r hr)).1

/-- Witness for C2 (as amended): two subscriptions sharing range 5, one of them with a
repeated range, then the first one is unsubscribed. -/
theorem registry_index_iff_witness :
    (drawnIds [RegistryOp.subscribe 1 "SELECT 1" [5, 5, 6], .subscribe 2 "SELECT 2" [5],
      .unsubscribe 1]).Nodup ∧
    ((∀ r, 2 ∈ (NewSubscriptionManager.run [RegistryOp.subscribe 1 "SELECT 1" [5, 5, 6],
          .subscribe 2 "SELECT 2" [5], .unsubscribe 1]).rangeSet r ↔
      ((NewSubscriptionManager.run [RegistryOp.subscribe 1 "SELECT 1" [5, 5, 6],
          .subscribe 2 "SELECT 2" [5], .unsubscribe 1]).subscriptions 2).isSome = true ∧
        r ∈ declaredRanges 2 [RegistryOp.subscribe 1 "SELECT 1" [5, 5, 6],
          .subscribe 2 "SELECT 2" [5], .unsubscribe 1]) ∧
    (((NewSubscriptionManager.run [RegistryOp.subscribe 1 "SELECT 1" [5, 5, 6],
          .subscribe 2 "SELECT 2" [5], .unsubscribe 1]).subscriptions 2).isSome = true →
      ∀ r ∈ declaredRanges 2 [RegistryOp.subscribe 1 "SELECT 1" [5, 5, 6],
          .subscribe 2 "SELECT 2" [5], .unsubscribe 1],
        2 ∈ (NewSubscriptionManager.run [RegistryOp.subscribe 1 "SELECT 1" [5, 5, 6],
          .subscribe 2 "SELECT 2" [5], .unsubscribe 1]).rangeSet r) ∧
    (∀ r, r ∉ declaredRanges 2 [RegistryOp.subscribe 1 "SELECT 1" [5, 5, 6],
          .subscribe 2 "SELECT 2" [5], .unsubscribe 1] →
      2 ∉ (NewSubscriptionManager.run [RegistryOp.subscribe 1 "SELECT 1" [5, 5, 6],
          .subscribe 2 "SELECT 2" [5], .unsubscribe 1]).rangeSet r) ∧
    (declaredRanges 2 [RegistryOp.subscribe 1 "SELECT 1" [5, 5, 6],
          .subscribe 2 "SELECT 2" [5], .unsubscribe 1] ≠ [] →
      (((NewSubscriptionManager.run [RegistryOp.subscribe 1 "SELECT 1" [5, 5, 6],
          .subscribe 2 "SELECT 2" [5], .unsubscribe 1]).subscriptions 2).isSome = true ↔
        ∀ r ∈ declaredRanges 2 [RegistryOp.subscribe 1 "SELECT 1" [5, 5, 6],
          .subscribe 2 "SELECT 2" [5], .unsubscribe 1],
          2 ∈ (NewSubscriptionManager.run [RegistryOp.subscribe 1 "SELECT 1" [5, 5, 6],
            .subscribe 2 "SELECT 2" [5], .unsubscribe 1]).rangeSet r))) :=
  ⟨by decide, registry_index_iff _ (by decide) 2⟩

/-- Counterexample to C2 as stated: `Subscribe` with an empty range list draws id 1 and
`Unsubscribe(1)` follows. Id 1 is then not a key of the primary map, although it is a
member of `rangeToSubs[r]` for every range it declared (it declared none) and of no
other: the stated equivalence fails, however its right-hand side is grouped. -/
theorem registry_iff_fails_for_empty_ranges :
    (drawnIds [RegistryOp.subscribe 1 "SELECT 1" [], .unsubscribe 1]).Nodup ∧
    ¬ (((NewSubscriptionManager.run
          [RegistryOp.subscribe 1 "SELECT 1" [], .unsubscribe 1]).subscriptions 1).isSome = true ↔
        ((∀ r ∈ declaredRanges 1 [RegistryOp.subscribe 1 "SELECT 1" [], .unsubscribe 1],
          1 ∈ (NewSubscriptionManager.run
            [RegistryOp.subscribe 1 "SELECT 1" [], .unsubscribe 1]).rangeSet r) ∧
        ∀ r, r ∉ declaredRanges 1 [RegistryOp.subscribe 1 "SELECT 1" [], .unsubscribe 1] →
          1 ∉ (NewSubscriptionManager.run
            [RegistryOp.subscribe 1 "SELECT 1" [], .unsubscribe 1]).rangeSet r)) ∧
    ¬ ((((NewSubscriptionManager.run
          [RegistryOp.subscribe 1 "SELECT 1" [], .unsubscribe 1]).subscriptions 1).isSome = true ↔
        ∀ r ∈ declaredRanges 1 [RegistryOp.subscribe 1 "SELECT 1" [], .unsubscribe 1],
          1 ∈ (NewSubscriptionManager.run
            [RegistryOp.subscribe 1 "SELECT 1" [], .unsubscribe 1]).rangeSet r) ∧
      ∀ r, r ∉ declaredRanges 1 [RegistryOp.subscribe 1 "SELECT 1" [], .unsubscribe 1] →
        1 ∉ (NewSubscriptionManager.run
          [RegistryOp.subscribe 1 "SELECT 1" [], .unsubscribe 1]).rangeSet r) := by
  have hA : ¬ ((NewSubscriptionManager.run
      [RegistryOp.subscribe 1 "SELECT 1" [], .unsubscribe 1]).subscriptions 1).isSome = true := by
    decide
  have hB : ∀ r ∈ declaredRanges 1 [RegistryOp.subscribe 1 "SELECT 1" [], .unsubscribe 1],
      1 ∈ (NewSubscriptionManager.run
        [RegistryOp.subscribe 1 "SELECT 1" [], .unsubscribe 1]).rangeSet r := by
    intro r hr
    simp [declaredRanges] at hr
  have hC : ∀ r, r ∉ declaredRanges 1 [RegistryOp.subscribe 1 "SELECT 1" [], .unsubscribe 1] →
      1 ∉ (NewSubscriptionManager.run
        [RegistryOp.subscribe 1 "SELECT 1" [], .unsubscribe 1]).rangeSet r := by
    intro r _
    have hinv := registry_inv [RegistryOp.subscribe 1 "SELECT 1" [], .unsubscribe 1] (by decide)
    intro hm
    exact hA ((hinv.index 1 r).mp hm).1
  exact ⟨by decide, fun h => hA (h.mpr ⟨hB, hC⟩), fun h => hA (h.1.mpr hB)⟩

/-! ## Properties of the execution cursor -/

theorem waitLoop_event (ie : Executor)
    (rangeOrder : List (String × String) → List (String × String)) (fuel : Nat)
    (sel : Nat → Bool) (n : subscribeNode) (env : ExecEnv) (event : TableChangeEvent)
    (ch : Chan) (hrecv : env.chan.recv = some (event, ch))
    (hsel : (env.ctxErr.isSome && sel 0) = false) :
    waitLoop ie rangeOrder (fuel + 1) sel n env =
      match (ie env.log (refreshRequest rangeOrder n event)).err with
      | some err =>
        .ret false (some err) n
          { env with chan := ch, log := env.log ++ [refreshRequest rangeOrder n event] }
      | none =>
        if (ie env.log (refreshRequest rangeOrder n event)).rows.length > 1 then
          .ret true none
            { n with currentRows := (ie env.log (refreshRequest rangeOrder n event)).rows,
                     currentIdx := 1 }
            { env with chan := ch, log := env.log ++ [refreshRequest rangeOrder n event] }
        else
          waitLoop ie rangeOrder fuel (fun k => sel (k + 1)) n
            { env with chan := ch, log := env.log ++ [refreshRequest rangeOrder n event] } := by
  rw [waitLoop]
  simp only [hrecv, hsel, Bool.false_eq_true, if_false]

theorem waitLoop_log (ie : Executor)
    (rangeOrder : List (String × String) → List (String × String)) (fuel : Nat) :
    ∀ (sel : Nat → Bool) (n : subscribeNode) (env : ExecEnv),
      ∃ rest, (waitLoop ie rangeOrder fuel sel n env).env.log = env.log ++ rest := by
  induction fuel with
  | zero =>
    intro sel n env
    exact ⟨[], by simp [waitLoop, NextResult.env]⟩
  | succ fuel ih =>
    intro sel n env
    cases hrecv : env.chan.recv with
    | none =>
      refine ⟨[], ?_⟩
      rw [waitLoop]
      simp only [hrecv]
      cases env.ctxErr <;> simp [NextResult.env]
    | some p =>
      obtain ⟨event, ch⟩ := p
      cases hsel : (env.ctxErr.isSome && sel 0) with
      | true =>
        refine ⟨[], ?_⟩
        rw [waitLoop]
        simp [hrecv, hsel, NextResult.env]
      | false =>
        rw [waitLoop_event ie rangeOrder fuel sel n env event ch hrecv hsel]
        cases (ie env.log (refreshRequest rangeOrder n event)).err with
        | some err => exact ⟨[refreshRequest rangeOrder n event], by simp [NextResult.env]⟩
        | none =>
          simp only
          split
          · exact ⟨[refreshRequest rangeOrder n event], by simp [NextResult.env]⟩
          · obtain ⟨rest, hrest⟩ := ih (fun k => sel (k + 1)) n
              { env with chan := ch, log := env.log ++ [refreshRequest rangeOrder n event] }
            refine ⟨refreshRequest rangeOrder n event :: rest, ?_⟩
            rw [hrest]
            simp

theorem Next_first_request (ie : Executor)
    (rangeOrder : List (String × String) → List (String × String)) (fuel : Nat)
    (sel : Nat → Bool) (n : subscribeNode) (env : ExecEnv) (event : TableChangeEvent)
    (ch : Chan) (hidx : ¬ n.currentIdx < n.currentRows.length)
    (hrecv : env.chan.recv = some (event, ch))
    (hsel : (env.ctxErr.isSome && sel 0) = false) :
    ∃ rest, (subscribeNode.Next ie rangeOrder (fuel + 1) sel n env).env.log =
      env.log ++ refreshRequest rangeOrder n event :: rest := by
  unfold subscribeNode.Next
  rw [if_neg hidx, waitLoop_event ie rangeOrder fuel sel n env event ch hrecv hsel]
  cases (ie env.log (refreshRequest rangeOrder n event)).err with
  | some err => exact ⟨[], by simp [NextResult.env]⟩
  | none =>
    simp only
    split
    · exact ⟨[], by simp [NextResult.env]⟩
    · obtain ⟨rest, hrest⟩ := waitLoop_log ie rangeOrder fuel (fun k => sel (k + 1)) n
        { env with chan := ch, log := env.log ++ [refreshRequest rangeOrder n event] }
      refine ⟨rest, ?_⟩
      rw [hrest]
      simp

/-- C3 (the code at the failing input): the node has no buffered rows, one event with key
`{id: 3}` is queued, and the executor returns a batch of exactly one row. `Next` submits
the refresh, discards the batch (`len(rows) > 1` is false), leaves `currentRows` and
`currentIdx` as they were and waits again, so no row is emitted and `Values` still
returns the NULL placeholder; with a batch of two rows the same call returns `(true, nil)`
and `Values` returns the first row. -/
theorem Next_discards_one_row_batch :
    subscribeNode.Next (constExecutor [[Datum.DVal "3"]]) (fun kvs => kvs) 2 (fun _ => false)
        waitingNode (envWith (keyedEvent "3")) =
      .blocked waitingNode
        { chan := { buf := [], cap := chanBufferSize, closed := false }, ctxErr := none,
          log := [{ opName := "subscribe-refresh", user := "root", database := "defaultdb",
                    stmt := "WITH base AS (SELECT * FROM accounts) SELECT * FROM base WHERE base.id = 3",
                    qargs := [] }] } ∧
    waitingNode.Values = [Datum.DNull] ∧
    subscribeNode.Next (constExecutor [[Datum.DVal "3"], [Datum.DVal "4"]]) (fun kvs => kvs) 2
        (fun _ => false) waitingNode (envWith (keyedEvent "3")) =
      .ret true none
        { waitingNode with currentRows := [[Datum.DVal "3"], [Datum.DVal "4"]], currentIdx := 1 }
        { chan := { buf := [], cap := chanBufferSize, closed := false }, ctxErr := none,
          log := [{ opName := "subscribe-refresh", user := "root", database := "defaultdb",
                    stmt := "WITH base AS (SELECT * FROM accounts) SELECT * FROM base WHERE base.id = 3",
                    qargs := [] }] } ∧
    ({ waitingNode with currentRows := [[Datum.DVal "3"], [Datum.DVal "4"]], currentIdx := 1 } :
      subscribeNode).Values = [Datum.DVal "3"] := by
  decide

/-- Counterexample to C4 as stated: for the events with key `{id: 7}` and `{id: 8}` the
request that `Next` submits has no bound parameters, its text ends in the characters of
the value (`base.id = 7`, `base.id = 8`), and the two texts differ although the key
columns are the same. -/
theorem refresh_text_contains_key_value :
    (subscribeNode.Next (constExecutor []) (fun kvs => kvs) 1 (fun _ => false)
        waitingNode (envWith (keyedEvent "7"))).env.log =
      [{ opName := "subscribe-refresh", user := "root", database := "defaultdb",
         stmt := "WITH base AS (SELECT * FROM accounts) SELECT * FROM base WHERE base.id = 7",
         qargs := [] }] ∧
    (subscribeNode.Next (constExecutor []) (fun kvs => kvs) 1 (fun _ => false)
        waitingNode (envWith (keyedEvent "8"))).env.log =
      [{ opName := "subscribe-refresh", user := "root", database := "defaultdb",
         stmt := "WITH base AS (SELECT * FROM accounts) SELECT * FROM base WHERE base.id = 8",
         qargs := [] }] ∧
    (refreshRequest (fun kvs => kvs) waitingNode (keyedEvent "7")).stmt ≠
      (refreshRequest (fun kvs => kvs) waitingNode (keyedEvent "8")).stmt := by
  decide

theorem string_append_left_cancel (p a b : String) (h : p ++ a = p ++ b) : a = b := by
  have h1 := congrArg String.data h
  simp only [String.data_append] at h1
  exact String.ext (List.append_cancel_left h1)

theorem refreshQuery_single (rangeOrder : List (String × String) → List (String × String))
    (q t o col v : String) (hro : rangeOrder [(col, v)] = [(col, v)]) :
    refreshQuery rangeOrder q (TableChangeEvent.mk t o (some [(col, v)])) =
      ("WITH base AS (" ++ q ++ ") SELECT * FROM base WHERE " ++ ("base." ++ col ++ " = ")) ++ v := by
  unfold refreshQuery
  simp only [List.length_singleton, gt_iff_lt, Nat.lt_one_iff, if_true, hro, List.map_cons,
    List.map_nil, Nat.zero_lt_one]
  simp [String.intercalate, String.intercalate.go, String.append_assoc]

/-- C4 (as amended): for every change event with a non-empty key that `Next` receives once
the buffered rows are exhausted, the request submitted to the executor carries no bound
parameters (`qargs` is empty) and its text is the original statement wrapped as `base`
followed by the conditions `base.<column> = <value>`, the characters of each value being
concatenated into the text. The text therefore depends on the key values: two
single-column keys on the same column with different values give different texts. -/
theorem Next_keyed_refresh_concatenates (ie : Executor)
    (rangeOrder : List (String × String) → List (String × String)) (fuel : Nat)
    (sel : Nat → Bool) (n : subscribeNode) (env : ExecEnv) (event : TableChangeEvent)
    (ch : Chan) (kvs : List (String × String))
    (hidx : ¬ n.currentIdx < n.currentRows.length)
    (hrecv : env.chan.recv = some (event, ch))
    (hsel : (env.ctxErr.isSome && sel 0) = false)
    (hkey : event.PrimaryKey = some kvs) (hne : kvs ≠ []) :
    (∃ rest, (subscribeNode.Next ie rangeOrder (fuel + 1) sel n env).env.log =
      env.log ++
        { opName := "subscribe-refresh", user := n.user, database := n.dbName,
          stmt := "WITH base AS (" ++ n.queryString ++ ") SELECT * FROM base WHERE " ++
            String.intercalate " AND "
              ((rangeOrder kvs).map (fun cv => "base." ++ cv.1 ++ " = " ++ cv.2)),
          qargs := [] } :: rest) ∧
    (∀ (t o col v1 v2 : String), v1 ≠ v2 →
      rangeOrder [(col, v1)] = [(col, v1)] → rangeOrder [(col, v2)] = [(col, v2)] →
      (refreshRequest rangeOrder n (TableChangeEvent.mk t o (some [(col, v1)]))).stmt ≠
        (refreshRequest rangeOrder n (TableChangeEvent.mk t o (some [(col, v2)]))).stmt) := by
  constructor
  · obtain ⟨rest, hrest⟩ := Next_first_request ie rangeOrder fuel sel n env event ch hidx hrecv hsel
    refine ⟨rest, ?_⟩
    rw [hrest]
    have hlen : kvs.length > 0 := List.length_pos.mpr hne
    simp [refreshRequest, refreshQuery, hkey, hlen]
  · intro t o col v1 v2 hv h1 h2 heq
    unfold refreshRequest at heq
    simp only at heq
    rw [refreshQuery_single rangeOrder _ t o col v1 h1,
      refreshQuery_single rangeOrder _ t o col v2 h2] at heq
    exact hv (string_append_left_cancel _ _ _ heq)

/-- Witness for C4 (as amended): the waiting node receives the event with key `{id: 7}`. -/
theorem Next_keyed_refresh_concatenates_witness :
    (¬ waitingNode.currentIdx < waitingNode.currentRows.length) ∧
    (envWith (keyedEvent "7")).chan.recv =
      some (keyedEvent "7", { buf := [], cap := chanBufferSize, closed := false }) ∧
    ((∃ rest, (subscribeNode.Next (constExecutor []) (fun kvs => kvs) (0 + 1) (fun _ => false)
        waitingNode (envWith (keyedEvent "7"))).env.log =
      (envWith (keyedEvent "7")).log ++
        { opName := "subscribe-refresh", user := waitingNode.user,
          database := waitingNode.dbName,
          stmt := "WITH base AS (" ++ waitingNode.queryString ++
            ") SELECT * FROM base WHERE " ++
            String.intercalate " AND "
              (((fun kvs => kvs) [("id", "7")]).map (fun cv => "base." ++ cv.1 ++ " = " ++ cv.2)),
          qargs := [] } :: rest) ∧
    (∀ (t o col v1 v2 : String), v1 ≠ v2 →
      (fun kvs => kvs) [(col, v1)] = [(col, v1)] → (fun kvs => kvs) [(col, v2)] = [(col, v2)] →
      (refreshRequest (fun kvs => kvs) waitingNode
          (TableChangeEvent.mk t o (some [(col, v1)]))).stmt ≠
        (refreshRequest (fun kvs => kvs) waitingNode
          (TableChangeEvent.mk t o (some [(col, v2)]))).stmt)) :=
  ⟨by decide, by decide,
   Next_keyed_refresh_concatenates (constExecutor []) (fun kvs => kvs) 0 (fun _ => false)
     waitingNode (envWith (keyedEvent "7")) (keyedEvent "7")
     { buf := [], cap := chanBufferSize, closed := false } [("id", "7")]
     (by decide) (by decide) (by decide) rfl (by decide)⟩

/-- C10: for every change event whose key mapping is nil or empty that `Next` receives
once the buffered rows are exhausted, the refresh text is exactly `queryString`, and the
request `Next` submits to the executor carries that text unmodified. -/
theorem Next_empty_key_runs_original (ie : Executor)
    (rangeOrder : List (String × String) → List (String × String)) (fuel : Nat)
    (sel : Nat → Bool) (n : subscribeNode) (env : ExecEnv) (event : TableChangeEvent)
    (ch : Chan) (hidx : ¬ n.currentIdx < n.currentRows.length)
    (hrecv : env.chan.recv = some (event, ch))
    (hsel : (env.ctxErr.isSome && sel 0) = false)
    (hkey : event.PrimaryKey = none ∨ event.PrimaryKey = some []) :
    refreshQuery rangeOrder n.queryString event = n.queryString ∧
    ∃ rest, (subscribeNode.Next ie rangeOrder (fuel + 1) sel n env).env.log =
      env.log ++
        { opName := "subscribe-refresh", user := n.user, database := n.dbName,
          stmt := n.queryString, qargs := [] } :: rest := by
  have hq : refreshQuery rangeOrder n.queryString event = n.queryString := by
    unfold refreshQuery
    rcases hkey with h | h <;> simp [h]
  refine ⟨hq, ?_⟩
  obtain ⟨rest, hrest⟩ := Next_first_request ie rangeOrder fuel sel n env event ch hidx hrecv hsel
  refine ⟨rest, ?_⟩
  rw [hrest]
  simp [refreshRequest, hq]

/-- Witness for C10: the waiting node receives an event whose key mapping is nil. -/
theorem Next_empty_key_runs_original_witness :
    (¬ waitingNode.currentIdx < waitingNode.currentRows.length) ∧
    (envWith (TableChangeEvent.mk "accounts" "delete" none)).chan.recv =
      some (TableChangeEvent.mk "accounts" "delete" none,
        { buf := [], cap := chanBufferSize, closed := false }) ∧
    (refreshQuery (fun kvs => kvs) waitingNode.queryString
        (TableChangeEvent.mk "accounts" "delete" none) = waitingNode.queryString ∧
    ∃ rest, (subscribeNode.Next (constExecutor []) (fun kvs => kvs) (0 + 1) (fun _ => false)
        waitingNode (envWith (TableChangeEvent.mk "accounts" "delete" none))).env.log =
      (envWith (TableChangeEvent.mk "accounts" "delete" none)).log ++
        { opName := "subscribe-refresh", user := waitingNode.user,
          database := waitingNode.dbName, stmt := waitingNode.queryString,
          qargs := [] } :: rest) :=
  ⟨by decide, by decide,
   Next_empty_key_runs_original (constExecutor []) (fun kvs => kvs) 0 (fun _ => false)
     waitingNode (envWith (TableChangeEvent.mk "accounts" "delete" none))
     (TableChangeEvent.mk "accounts" "delete" none)
     { buf := [], cap := chanBufferSize, closed := false }
     (by decide) (by decide) (by decide) (Or.inl rfl)⟩

theorem nextCalls_serving (ie : Executor)
    (rangeOrder : List (String × String) → List (String × String)) (fuel : Nat)
    (sel : Nat → Bool) (env : ExecEnv) :
    ∀ (k : Nat) (n : subscribeNode), n.currentIdx + k ≤ n.currentRows.length →
      nextCalls ie rangeOrder fuel sel k n env =
        some ({ n with currentIdx := n.currentIdx + k }, env) := by
  intro k
  induction k with
  | zero =>
    intro n _
    simp [nextCalls]
  | succ k ih =>
    intro n hk
    have hlt : n.currentIdx < n.currentRows.length := by
      push_cast at hk
      omega
    have hnext : subscribeNode.Next ie rangeOrder fuel sel n env =
        .ret true none { n with currentIdx := n.currentIdx + 1 } env := by
      unfold subscribeNode.Next
      rw [if_pos hlt]
    rw [nextCalls, hnext]
    simp only
    rw [ih { n with currentIdx := n.currentIdx + 1 } (by push_cast at hk ⊢; omega)]
    simp only [Option.some.injEq, Prod.mk.injEq, and_true]
    congr 1
    push_cast
    omega

theorem Values_at (n : subscribeNode) (k : Nat) (hk : k < n.currentRows.length) :
    ({ n with currentIdx := (k : Int) + 1 } : subscribeNode).Values =
      n.currentRows.get ⟨k, hk⟩ := by
  unfold subscribeNode.Values
  have hcond : ((k : Int) + 1 > 0 ∧ (k : Int) + 1 ≤ (n.currentRows.length : Int)) := by
    constructor <;> omega
  simp only [hcond, and_self, dite_true]
  congr 1
  apply Fin.ext
  simp

/-- C9: for every node whose cursor is at the start of an initial batch of `n` rows,
whatever the event queue, the context and the executor are: for each `k < n`, the first
`k + 1` calls to `Next` all return `(true, nil)` and leave the environment (event queue,
context, executor log) exactly as it was, and after them `Values` returns row `k` of the
batch (counting from 0); after `n` such calls the cursor is at `n`. The call after
them is the one that waits for a change event: with an empty open queue and a context
that is not cancelled it is suspended in the `select`, returning nothing and leaving node
and environment as they are; and when an event can be received it takes that event and
submits the refresh request for it to the executor. -/
theorem Next_serves_buffered_rows (ie : Executor)
    (rangeOrder : List (String × String) → List (String × String)) (fuel : Nat)
    (sel : Nat → Bool) (n : subscribeNode) (env : ExecEnv) (h0 : n.currentIdx = 0) :
    (∀ (k : Nat) (hk : k < n.currentRows.length),
      nextCalls ie rangeOrder fuel sel (k + 1) n env =
        some ({ n with currentIdx := (k : Int) + 1 }, env) ∧
      ({ n with currentIdx := (k : Int) + 1 } : subscribeNode).Values =
        n.currentRows.get ⟨k, hk⟩) ∧
    nextCalls ie rangeOrder fuel sel n.currentRows.length n env =
      some ({ n with currentIdx := (n.currentRows.length : Int) }, env) ∧
    (env.chan.buf = [] → env.chan.closed = false → env.ctxErr = none →
      subscribeNode.Next ie rangeOrder (fuel + 1) sel
          { n with currentIdx := (n.currentRows.length : Int) } env =
        .blocked { n with currentIdx := (n.currentRows.length : Int) } env) ∧
    (∀ (event : TableChangeEvent) (ch : Chan), env.chan.recv = some (event, ch) →
      (env.ctxErr.isSome && sel 0) = false →
      ∃ rest, (subscribeNode.Next ie rangeOrder (fuel + 1) sel
          { n with currentIdx := (n.currentRows.length : Int) } env).env.log =
        env.log ++
          refreshRequest rangeOrder { n with currentIdx := (n.currentRows.length : Int) } event ::
            rest) := by
  have hidx : ¬ ({ n with currentIdx := (n.currentRows.length : Int) } : subscribeNode).currentIdx <
      (({ n with currentIdx := (n.currentRows.length : Int) } : subscribeNode).currentRows.length :
        Int) := by
    show ¬ (n.currentRows.length : Int) < (n.currentRows.length : Int)
    omega
  refine ⟨?_, ?_, ?_, ?_⟩
  · intro k hk
    refine ⟨?_, Values_at n k hk⟩
    rw [nextCalls_serving ie rangeOrder fuel sel env (k + 1) n (by rw [h0]; push_cast; omega), h0]
    simp
  · rw [nextCalls_serving ie rangeOrder fuel sel env _ n (by rw [h0]; omega), h0]
    simp
  · intro hbuf hopen hctx
    have hrecv : env.chan.recv = none := by
      unfold Chan.recv
      rw [hbuf]
      simp [hopen]
    unfold subscribeNode.Next
    rw [if_neg hidx, waitLoop]
    simp only [hrecv, hctx]
  · intro event ch hrecv hsel
    exact Next_first_request ie rangeOrder fuel sel _ env event ch hidx hrecv hsel

/-- Witness for C9: a node with an initial batch of two rows and an empty event queue;
the third call is suspended. -/
theorem Next_serves_buffered_rows_witness :
    twoRowNode.currentIdx = 0 ∧
    subscribeNode.Next (constExecutor []) (fun kvs => kvs) (0 + 1) (fun _ => false)
        { twoRowNode with currentIdx := (twoRowNode.currentRows.length : Int) }
        { chan := makeChan chanBufferSize, ctxErr := none, log := [] } =
      .blocked { twoRowNode with currentIdx := (twoRowNode.currentRows.length : Int) }
        { chan := makeChan chanBufferSize, ctxErr := none, log := [] } ∧
    ((∀ (k : Nat) (hk : k < twoRowNode.currentRows.length),
      nextCalls (constExecutor []) (fun kvs => kvs) 0 (fun _ => false) (k + 1) twoRowNode
          { chan := makeChan chanBufferSize, ctxErr := none, log := [] } =
        some ({ twoRowNode with currentIdx := (k : Int) + 1 },
          { chan := makeChan chanBufferSize, ctxErr := none, log := [] }) ∧
      ({ twoRowNode with currentIdx := (k : Int) + 1 } : subscribeNode).Values =
        twoRowNode.currentRows.get ⟨k, hk⟩) ∧
    nextCalls (constExecutor []) (fun kvs => kvs) 0 (fun _ => false)
        twoRowNode.currentRows.length twoRowNode
        { chan := makeChan chanBufferSize, ctxErr := none, log := [] } =
      some ({ twoRowNode with currentIdx := (twoRowNode.currentRows.length : Int) },
        { chan := makeChan chanBufferSize, ctxErr := none, log := [] }) ∧
    (({ chan := makeChan chanBufferSize, ctxErr := none, log := [] } : ExecEnv).chan.buf = [] →
      ({ chan := makeChan chanBufferSize, ctxErr := none, log := [] } : ExecEnv).chan.closed
        = false →
      ({ chan := makeChan chanBufferSize, ctxErr := none, log := [] } : ExecEnv).ctxErr = none →
      subscribeNode.Next (constExecutor []) (fun kvs => kvs) (0 + 1) (fun _ => false)
          { twoRowNode with currentIdx := (twoRowNode.currentRows.length : Int) }
          { chan := makeChan chanBufferSize, ctxErr := none, log := [] } =
        .blocked { twoRowNode with currentIdx := (twoRowNode.currentRows.length : Int) }
          { chan := makeChan chanBufferSize, ctxErr := none, log := [] }) ∧
    (∀ (event : TableChangeEvent) (ch : Chan),
      ({ chan := makeChan chanBufferSize, ctxErr := none, log := [] } : ExecEnv).chan.recv =
        some (event, ch) →
      ((({ chan := makeChan chanBufferSize, ctxErr := none, log := [] } : ExecEnv).ctxErr.isSome
        && (fun _ => false) 0) = false) →
      ∃ rest, (subscribeNode.Next (constExecutor []) (fun kvs => kvs) (0 + 1) (fun _ => false)
          { twoRowNode with currentIdx := (twoRowNode.currentRows.length : Int) }
          { chan := makeChan chanBufferSize, ctxErr := none, log := [] }).env.log =
        ({ chan := makeChan chanBufferSize, ctxErr := none, log := [] } : ExecEnv).log ++
          refreshRequest (fun kvs => kvs)
            { twoRowNode with currentIdx := (twoRowNode.currentRows.length : Int) } event ::
            rest)) :=
  ⟨rfl,
   (Next_serves_buffered_rows (constExecutor []) (fun kvs => kvs) 0 (fun _ => false)
    twoRowNode { chan := makeChan chanBufferSize, ctxErr := none, log := [] } rfl).2.2.1
      rfl rfl rfl,
   Next_serves_buffered_rows (constExecutor []) (fun kvs => kvs) 0 (fun _ => false)
    twoRowNode { chan := makeChan chanBufferSize, ctxErr := none, log := [] } rfl⟩

/-! ## Registry: effect of single calls -/

theorem subscribeRanges_nonempty (subID : Nat) :
    ∀ (ranges : List Int) (m : Int → Option (Finset Nat)),
      (∀ r, m r ≠ some ∅) → ∀ r, subscribeRanges subID ranges m r ≠ some ∅
  | [], m, hm, r => by
    rw [subscribeRanges]
    exact hm r
  | r0 :: rest, m, hm, r => by
    rw [subscribeRanges]
    apply subscribeRanges_nonempty subID rest
    intro r1
    by_cases h : r1 = r0
    · subst h
      rw [Function.update_same]
      intro hc
      have hc1 := Option.some.inj hc
      exact Finset.insert_ne_empty _ _ hc1
    · rw [Function.update_noteq h]
      exact hm r1

theorem subscribeRanges_isSome (subID : Nat) :
    ∀ (ranges : List Int) (m : Int → Option (Finset Nat)) (r : Int),
      r ∈ ranges ∨ (m r).isSome = true → (subscribeRanges subID ranges m r).isSome = true
  | [], m, r, h => by
    rw [subscribeRanges]
    rcases h with h | h
    · exact absurd h (List.not_mem_nil _)
    · exact h
  | r0 :: rest, m, r, h => by
    rw [subscribeRanges]
    apply subscribeRanges_isSome subID rest
    by_cases h0 : r = r0
    · subst h0
      right
      rw [Function.update_same]
      rfl
    · rw [Function.update_noteq h0]
      rcases h with h | h
      · rcases List.mem_cons.mp h with h1 | h1
        · exact absurd h1 h0
        · exact Or.inl h1
      · exact Or.inr h

theorem unsubscribeRanges_nonempty (subID : Nat) :
    ∀ (ranges : List Int) (m : Int → Option (Finset Nat)),
      (∀ r, m r ≠ some ∅) → ∀ r, unsubscribeRanges subID ranges m r ≠ some ∅
  | [], m, hm, r => by
    rw [unsubscribeRanges]
    exact hm r
  | r0 :: rest, m, hm, r => by
    rw [unsubscribeRanges]
    apply unsubscribeRanges_nonempty subID rest
    intro r1
    have hm1 : ∀ r2, r2 ≠ r0 →
        (match m r0 with
          | none => m
          | some s => Function.update m r0 (some (s.erase subID))) r2 = m r2 := by
      intro r2 h2
      cases m r0 with
      | none => rfl
      | some s => exact Function.update_noteq h2 _ _
    split
    · by_cases h : r1 = r0
      · subst h
        rw [Function.update_same]
        simp
      · rw [Function.update_noteq h, hm1 r1 h]
        exact hm r1
    · rename_i hlen
      by_cases h : r1 = r0
      · subst h
        intro hc
        rw [hc] at hlen
        simp at hlen
      · rw [hm1 r1 h]
        exact hm r1

theorem shape_new : RegistryShape NewSubscriptionManager where
  ownId := by
    intro id p h
    simp [NewSubscriptionManager] at h
  nonempty := by
    intro r
    simp [NewSubscriptionManager]

theorem shape_Subscribe (sm : SubscriptionManager) (hs : RegistryShape sm) (newID : Nat)
    (stmt : String) (ranges : List Int) : RegistryShape (sm.Subscribe newID stmt ranges).2 where
  ownId := by
    intro id p h
    change Function.update sm.subscriptions newID (some sm.nextPtr) id = some p at h
    show p < sm.nextPtr + 1 ∧ (Function.update sm.heap sm.nextPtr _ p).id = id ∧
      (Function.update sm.heap sm.nextPtr _ p).active = true
    by_cases hid : id = newID
    · subst hid
      rw [Function.update_same] at h
      have hp : p = sm.nextPtr := (Option.some.inj h).symm
      subst hp
      rw [Function.update_same]
      exact ⟨by omega, rfl, rfl⟩
    · rw [Function.update_noteq hid] at h
      obtain ⟨h1, h2, h3⟩ := hs.ownId id p h
      have hne : p ≠ sm.nextPtr := by omega
      rw [Function.update_noteq hne]
      exact ⟨by omega, h2, h3⟩
  nonempty := subscribeRanges_nonempty newID ranges sm.rangeToSubs hs.nonempty

theorem Unsubscribe_of_live (sm : SubscriptionManager) (subID ptr : Nat)
    (h : sm.subscriptions subID = some ptr) :
    sm.Unsubscribe subID =
      SubscriptionManager.mk (Function.update sm.subscriptions subID none)
        (unsubscribeRanges subID (sm.heap ptr).affectedRanges sm.rangeToSubs)
        (Function.update sm.heap ptr { sm.heap ptr with active := false })
        sm.nextPtr := by
  unfold SubscriptionManager.Unsubscribe
  rw [h]

theorem Unsubscribe_of_absent (sm : SubscriptionManager) (subID : Nat)
    (h : sm.subscriptions subID = none) : sm.Unsubscribe subID = sm := by
  unfold SubscriptionManager.Unsubscribe
  rw [h]

theorem shape_Unsubscribe (sm : SubscriptionManager) (hs : RegistryShape sm) (subID : Nat) :
    RegistryShape (sm.Unsubscribe subID) := by
  cases hl : sm.subscriptions subID with
  | none =>
    rw [Unsubscribe_of_absent sm subID hl]
    exact hs
  | some ptr =>
    rw [Unsubscribe_of_live sm subID ptr hl]
    constructor
    · intro id p h
      change Function.update sm.subscriptions subID none id = some p at h
      show p < sm.nextPtr ∧ (Function.update sm.heap ptr _ p).id = id ∧
        (Function.update sm.heap ptr _ p).active = true
      by_cases hid : id = subID
      · subst hid
        rw [Function.update_same] at h
        exact absurd h (by simp)
      · rw [Function.update_noteq hid] at h
        obtain ⟨h1, h2, h3⟩ := hs.ownId id p h
        have hne : p ≠ ptr := by
          intro hp
          subst hp
          exact hid (h2.symm.trans (hs.ownId subID p hl).2.1)
        rw [Function.update_noteq hne]
        exact ⟨h1, h2, h3⟩
    · exact unsubscribeRanges_nonempty subID _ sm.rangeToSubs hs.nonempty

theorem shape_run (ops : List RegistryOp) :
    ∀ (sm : SubscriptionManager), RegistryShape sm → RegistryShape (sm.run ops) := by
  induction ops with
  | nil => exact fun sm hs => hs
  | cons op ops ih =>
    intro sm hs
    rw [SubscriptionManager.run]
    apply ih
    cases op with
    | subscribe newID stmt ranges => exact shape_Subscribe sm hs newID stmt ranges
    | unsubscribe subID => exact shape_Unsubscribe sm hs subID

theorem GetSubscription_of_live (sm : SubscriptionManager) (subID ptr : Nat)
    (h : sm.subscriptions subID = some ptr) :
    sm.GetSubscription subID = (some (sm.heap ptr), true) := by
  unfold SubscriptionManager.GetSubscription
  rw [h]

theorem GetSubscription_of_absent (sm : SubscriptionManager) (subID : Nat)
    (h : sm.subscriptions subID = none) : sm.GetSubscription subID = (none, false) := by
  unfold SubscriptionManager.GetSubscription
  rw [h]

theorem absent_of_not_drawn (ops : List RegistryOp) :
    ∀ (sm : SubscriptionManager) (subID : Nat), sm.subscriptions subID = none →
      subID ∉ drawnIds ops → (sm.run ops).subscriptions subID = none := by
  induction ops with
  | nil => exact fun sm subID h _ => h
  | cons op ops ih =>
    intro sm subID h hnd
    rw [SubscriptionManager.run]
    cases op with
    | subscribe newID stmt ranges =>
      simp only [drawnIds, List.mem_cons, not_or] at hnd
      apply ih _ subID _ hnd.2
      show Function.update sm.subscriptions newID (some sm.nextPtr) subID = none
      rw [Function.update_noteq hnd.1]
      exact h
    | unsubscribe id =>
      simp only [drawnIds] at hnd
      apply ih _ subID _ hnd
      show (sm.Unsubscribe id).subscriptions subID = none
      cases hl : sm.subscriptions id with
      | none =>
        rw [Unsubscribe_of_absent sm id hl]
        exact h
      | some ptr =>
        rw [Unsubscribe_of_live sm id ptr hl]
        show Function.update sm.subscriptions id none subID = none
        by_cases hid : subID = id
        · subst hid
          rw [Function.update_same]
        · rw [Function.update_noteq hid]
          exact h

/-- C14: let `subID` be registered after a sequence of calls on a new registry whose
`Subscribe` calls drew distinct ids. After `Unsubscribe(subID)`: `GetSubscription(subID)`
reports not found; the subscription object has `active = false`; `subID` is a member of
no `rangeToSubs` set; no `rangeToSubs` entry is an empty set; and for every other id the
result of `GetSubscription` and the membership in every `rangeToSubs[r]` are what they
were before the call. -/
theorem Unsubscribe_removes (ops : List RegistryOp) (hfresh : (drawnIds ops).Nodup)
    (subID ptr : Nat)
    (hlive : (NewSubscriptionManager.run ops).subscriptions subID = some ptr) :
    ((NewSubscriptionManager.run ops).Unsubscribe subID).GetSubscription subID = (none, false) ∧
    (((NewSubscriptionManager.run ops).Unsubscribe subID).heap ptr).active = false ∧
    (∀ r, subID ∉ ((NewSubscriptionManager.run ops).Unsubscribe subID).rangeSet r) ∧
    (∀ r, ((NewSubscriptionManager.run ops).Unsubscribe subID).rangeToSubs r ≠ some ∅) ∧
    (∀ id1, id1 ≠ subID →
      ((NewSubscriptionManager.run ops).Unsubscribe subID).GetSubscription id1 =
        (NewSubscriptionManager.run ops).GetSubscription id1 ∧
      ∀ r, (id1 ∈ ((NewSubscriptionManager.run ops).Unsubscribe subID).rangeSet r ↔
        id1 ∈ (NewSubscriptionManager.run ops).rangeSet r)) := by
  have hinv := registry_inv ops hfresh
  have hs := shape_run ops NewSubscriptionManager shape_new
  have hs1 := shape_Unsubscribe _ hs subID
  generalize NewSubscriptionManager.run ops = sm at hinv hs hs1 hlive
  have hne := hs1.nonempty
  rw [Unsubscribe_of_live sm subID ptr hlive] at hne ⊢
  refine ⟨?_, ?_, ?_, hne, ?_⟩
  · apply GetSubscription_of_absent
    show Function.update sm.subscriptions subID none subID = none
    rw [Function.update_same]
  · show (Function.update sm.heap ptr _ ptr).active = false
    rw [Function.update_same]
  · intro r hm
    change subID ∈ setAt (unsubscribeRanges subID (sm.heap ptr).affectedRanges sm.rangeToSubs) r
      at hm
    rw [mem_unsubscribeRanges] at hm
    have hdecl := ((hinv.index subID r).mp hm.1).2
    rw [← (hinv.live subID ptr hlive).2.2] at hdecl
    exact hm.2 ⟨rfl, hdecl⟩
  · intro id1 hid
    constructor
    · cases hl : sm.subscriptions id1 with
      | none =>
        rw [GetSubscription_of_absent sm id1 hl]
        apply GetSubscription_of_absent
        show Function.update sm.subscriptions subID none id1 = none
        rw [Function.update_noteq hid]
        exact hl
      | some p =>
        rw [GetSubscription_of_live sm id1 p hl]
        have hp : p ≠ ptr := by
          intro hp
          subst hp
          exact hid ((hs.ownId id1 p hl).2.1.symm.trans (hs.ownId subID p hlive).2.1)
        have hl1 : Function.update sm.subscriptions subID none id1 = some p := by
          rw [Function.update_noteq hid]
          exact hl
        rw [GetSubscription_of_live _ id1 p hl1]
        show (some (Function.update sm.heap ptr _ p), true) = _
        rw [Function.update_noteq hp]
    · intro r
      show id1 ∈ setAt (unsubscribeRanges subID (sm.heap ptr).affectedRanges sm.rangeToSubs) r ↔
        id1 ∈ setAt sm.rangeToSubs r
      rw [mem_unsubscribeRanges]
      constructor
      · exact fun h => h.1
      · exact fun h => ⟨h, fun hc => hid hc.1⟩

/-- Witness for C14: subscriptions 1 and 2 share range 5; subscription 1 is removed. -/
theorem Unsubscribe_removes_witness :
    (drawnIds [RegistryOp.subscribe 1 "SELECT 1" [5, 6], .subscribe 2 "SELECT 2" [5]]).Nodup ∧
    (NewSubscriptionManager.run
      [RegistryOp.subscribe 1 "SELECT 1" [5, 6], .subscribe 2 "SELECT 2" [5]]).subscriptions 1 =
      some 0 ∧
    (((NewSubscriptionManager.run [RegistryOp.subscribe 1 "SELECT 1" [5, 6],
        .subscribe 2 "SELECT 2" [5]]).Unsubscribe 1).GetSubscription 1 = (none, false) ∧
    (((NewSubscriptionManager.run [RegistryOp.subscribe 1 "SELECT 1" [5, 6],
        .subscribe 2 "SELECT 2" [5]]).Unsubscribe 1).heap 0).active = false ∧
    (∀ r, 1 ∉ ((NewSubscriptionManager.run [RegistryOp.subscribe 1 "SELECT 1" [5, 6],
        .subscribe 2 "SELECT 2" [5]]).Unsubscribe 1).rangeSet r) ∧
    (∀ r, ((NewSubscriptionManager.run [RegistryOp.subscribe 1 "SELECT 1" [5, 6],
        .subscribe 2 "SELECT 2" [5]]).Unsubscribe 1).rangeToSubs r ≠ some ∅) ∧
    (∀ id1, id1 ≠ 1 →
      ((NewSubscriptionManager.run [RegistryOp.subscribe 1 "SELECT 1" [5, 6],
          .subscribe 2 "SELECT 2" [5]]).Unsubscribe 1).GetSubscription id1 =
        (NewSubscriptionManager.run [RegistryOp.subscribe 1 "SELECT 1" [5, 6],
          .subscribe 2 "SELECT 2" [5]]).GetSubscription id1 ∧
      ∀ r, (id1 ∈ ((NewSubscriptionManager.run [RegistryOp.subscribe 1 "SELECT 1" [5, 6],
          .subscribe 2 "SELECT 2" [5]]).Unsubscribe 1).rangeSet r ↔
        id1 ∈ (NewSubscriptionManager.run [RegistryOp.subscribe 1 "SELECT 1" [5, 6],
          .subscribe 2 "SELECT 2" [5]]).rangeSet r))) :=
  ⟨by decide, by decide, Unsubscribe_removes _ (by decide) 1 0 (by decide)⟩

/-- C15: `Unsubscribe(subID)` for an id that is not a key of the primary map (never
registered, or already removed) returns the registry state it was given, both maps
included; after any `Unsubscribe(id)` the id is not a key, so a second `Unsubscribe(id)`
yields the same state as the first. The function is total: no call fails. -/
theorem Unsubscribe_unknown_is_noop (sm : SubscriptionManager) (subID : Nat)
    (habsent : sm.subscriptions subID = none) :
    sm.Unsubscribe subID = sm ∧
    (∀ (sm2 : SubscriptionManager) (id : Nat),
      (sm2.Unsubscribe id).subscriptions id = none ∧
      (sm2.Unsubscribe id).Unsubscribe id = sm2.Unsubscribe id) ∧
    (∀ (ops : List RegistryOp) (id : Nat), id ∉ drawnIds ops →
      (NewSubscriptionManager.run ops).subscriptions id = none) := by
  refine ⟨Unsubscribe_of_absent sm subID habsent, ?_, ?_⟩
  · intro sm2 id
    have h1 : (sm2.Unsubscribe id).subscriptions id = none := by
      cases hl : sm2.subscriptions id with
      | none =>
        rw [Unsubscribe_of_absent sm2 id hl]
        exact hl
      | some ptr =>
        rw [Unsubscribe_of_live sm2 id ptr hl]
        show Function.update sm2.subscriptions id none id = none
        rw [Function.update_same]
    exact ⟨h1, Unsubscribe_of_absent _ id h1⟩
  · intro ops id hnd
    exact absent_of_not_drawn ops NewSubscriptionManager id rfl hnd

/-- Witness for C15: id 7 was never registered in the registry that holds subscription 1. -/
theorem Unsubscribe_unknown_is_noop_witness :
    (NewSubscriptionManager.run [RegistryOp.subscribe 1 "SELECT 1" [5]]).subscriptions 7 = none ∧
    ((NewSubscriptionManager.run [RegistryOp.subscribe 1 "SELECT 1" [5]]).Unsubscribe 7 =
      NewSubscriptionManager.run [RegistryOp.subscribe 1 "SELECT 1" [5]] ∧
    (∀ (sm2 : SubscriptionManager) (id : Nat),
      (sm2.Unsubscribe id).subscriptions id = none ∧
      (sm2.Unsubscribe id).Unsubscribe id = sm2.Unsubscribe id) ∧
    (∀ (ops : List RegistryOp) (id : Nat), id ∉ drawnIds ops →
      (NewSubscriptionManager.run ops).subscriptions id = none)) :=
  ⟨by decide, Unsubscribe_unknown_is_noop _ 7 (by decide)⟩

/-- C16: in the registry reached by any sequence of calls, `Subscribe(stmt, ranges)` that
draws an id which is not a key of the primary map returns that id with a nil error;
afterwards `GetSubscription(id)` finds a subscription holding `stmt` and `ranges` with
`active = true`, the id is a member of `rangeToSubs[r]` and that entry exists for every
`r` in `ranges`, and for every subscription registered before the call the result of
`GetSubscription` and the membership in every `rangeToSubs[r]` are unchanged. -/
theorem Subscribe_registers (ops : List RegistryOp) (newID : Nat) (stmt : String)
    (ranges : List Int)
    (hnew : (NewSubscriptionManager.run ops).subscriptions newID = none) :
    ((NewSubscriptionManager.run ops).Subscribe newID stmt ranges).1 = (newID, none) ∧
    ((NewSubscriptionManager.run ops).Subscribe newID stmt ranges).2.GetSubscription newID =
      (some { id := newID, stmt := stmt, affectedRanges := ranges, active := true }, true) ∧
    (∀ r ∈ ranges,
      newID ∈ ((NewSubscriptionManager.run ops).Subscribe newID stmt ranges).2.rangeSet r ∧
      (((NewSubscriptionManager.run ops).Subscribe newID stmt ranges).2.rangeToSubs r).isSome
        = true) ∧
    (∀ id1, ((NewSubscriptionManager.run ops).subscriptions id1).isSome = true →
      ((NewSubscriptionManager.run ops).Subscribe newID stmt ranges).2.GetSubscription id1 =
        (NewSubscriptionManager.run ops).GetSubscription id1 ∧
      ∀ r, (id1 ∈ ((NewSubscriptionManager.run ops).Subscribe newID stmt ranges).2.rangeSet r ↔
        id1 ∈ (NewSubscriptionManager.run ops).rangeSet r)) := by
  have hs := shape_run ops NewSubscriptionManager shape_new
  generalize NewSubscriptionManager.run ops = sm at hs hnew
  refine ⟨rfl, ?_, ?_, ?_⟩
  · have hl : (sm.Subscribe newID stmt ranges).2.subscriptions newID = some sm.nextPtr := by
      show Function.update sm.subscriptions newID (some sm.nextPtr) newID = _
      rw [Function.update_same]
    rw [GetSubscription_of_live _ newID _ hl]
    show (some (Function.update sm.heap sm.nextPtr _ sm.nextPtr), true) = _
    rw [Function.update_same]
  · intro r hr
    constructor
    · show newID ∈ setAt (subscribeRanges newID ranges sm.rangeToSubs) r
      rw [mem_subscribeRanges]
      exact Or.inr ⟨rfl, hr⟩
    · exact subscribeRanges_isSome newID ranges sm.rangeToSubs r (Or.inl hr)
  · intro id1 hsome
    have hid : id1 ≠ newID := by
      intro hc
      subst hc
      rw [hnew] at hsome
      exact absurd hsome (by simp)
    constructor
    · cases hl : sm.subscriptions id1 with
      | none =>
        rw [hl] at hsome
        exact absurd hsome (by simp)
      | some p =>
        have hl1 : (sm.Subscribe newID stmt ranges).2.subscriptions id1 = some p := by
          show Function.update sm.subscriptions newID (some sm.nextPtr) id1 = _
          rw [Function.update_noteq hid]
          exact hl
        rw [GetSubscription_of_live _ id1 p hl1, GetSubscription_of_live sm id1 p hl]
        have hp : p ≠ sm.nextPtr := by
          have := (hs.ownId id1 p hl).1
          omega
        show (some (Function.update sm.heap sm.nextPtr _ p), true) = _
        rw [Function.update_noteq hp]
    · intro r
      show id1 ∈ setAt (subscribeRanges newID ranges sm.rangeToSubs) r ↔
        id1 ∈ setAt sm.rangeToSubs r
      rw [mem_subscribeRanges]
      constructor
      · rintro (h | ⟨h, _⟩)
        · exact h
        · exact absurd h hid
      · exact Or.inl

/-- Witness for C16: a second subscription, on ranges 5 and 9, joins subscription 1. -/
theorem Subscribe_registers_witness :
    (NewSubscriptionManager.run [RegistryOp.subscribe 1 "SELECT 1" [5]]).subscriptions 2 = none ∧
    (((NewSubscriptionManager.run [RegistryOp.subscribe 1 "SELECT 1" [5]]).Subscribe 2
        "SELECT 2" [5, 9]).1 = (2, none) ∧
    ((NewSubscriptionManager.run [RegistryOp.subscribe 1 "SELECT 1" [5]]).Subscribe 2
        "SELECT 2" [5, 9]).2.GetSubscription 2 =
      (some { id := 2, stmt := "SELECT 2", affectedRanges := [5, 9], active := true }, true) ∧
    (∀ r ∈ ([5, 9] : List Int),
      2 ∈ ((NewSubscriptionManager.run [RegistryOp.subscribe 1 "SELECT 1" [5]]).Subscribe 2
        "SELECT 2" [5, 9]).2.rangeSet r ∧
      (((NewSubscriptionManager.run [RegistryOp.subscribe 1 "SELECT 1" [5]]).Subscribe 2
        "SELECT 2" [5, 9]).2.rangeToSubs r).isSome = true) ∧
    (∀ id1, ((NewSubscriptionManager.run
        [RegistryOp.subscribe 1 "SELECT 1" [5]]).subscriptions id1).isSome = true →
      ((NewSubscriptionManager.run [RegistryOp.subscribe 1 "SELECT 1" [5]]).Subscribe 2
          "SELECT 2" [5, 9]).2.GetSubscription id1 =
        (NewSubscriptionManager.run [RegistryOp.subscribe 1 "SELECT 1" [5]]).GetSubscription id1 ∧
      ∀ r, (id1 ∈ ((NewSubscriptionManager.run [RegistryOp.subscribe 1 "SELECT 1" [5]]).Subscribe 2
          "SELECT 2" [5, 9]).2.rangeSet r ↔
        id1 ∈ (NewSubscriptionManager.run [RegistryOp.subscribe 1 "SELECT 1" [5]]).rangeSet r))) :=
  ⟨by decide, Subscribe_registers _ 2 "SELECT 2" [5, 9] (by decide)⟩

/-- C17 (the code at the failing input): subscription 1 depends on range 5, so
`rangeToSubs[5]` is the set `{1}`; `OnRangeChange(5, event)` leaves the registry as it
is and notifies no subscription, as it does for range 6, on which nothing depends. -/
theorem OnRangeChange_notifies_nobody :
    (NewSubscriptionManager.run [RegistryOp.subscribe 1 "SELECT * FROM accounts" [5]]).rangeSet 5
      = {1} ∧
    ((NewSubscriptionManager.run
      [RegistryOp.subscribe 1 "SELECT * FROM accounts" [5]]).OnRangeChange 5 "put").2 = [] ∧
    ((NewSubscriptionManager.run
      [RegistryOp.subscribe 1 "SELECT * FROM accounts" [5]]).OnRangeChange 5 "put").1 =
      NewSubscriptionManager.run [RegistryOp.subscribe 1 "SELECT * FROM accounts" [5]] ∧
    ((NewSubscriptionManager.run
      [RegistryOp.subscribe 1 "SELECT * FROM accounts" [5]]).OnRangeChange 6 "put").2 = [] := by
  refine ⟨by decide, by decide, rfl, by decide⟩

/-! ## Execution cursor: errors, cancellation, filter text -/

theorem recv_buf_tail (c c1 : Chan) (ev ev0 : TableChangeEvent) (rest : List TableChangeEvent)
    (h : c.recv = some (ev, c1)) (hb : c.buf = ev0 :: rest) : ev = ev0 ∧ c1.buf = rest := by
  unfold Chan.recv at h
  rw [hb] at h
  simp only [Option.some.injEq, Prod.mk.injEq] at h
  exact ⟨h.1.symm, by rw [← h.2]⟩

theorem recv_none_of_empty_open (c : Chan) (hb : c.buf = []) (ho : c.closed = false) :
    c.recv = none := by
  unfold Chan.recv
  rw [hb]
  simp [ho]

theorem waitLoop_false (ie : Executor)
    (rangeOrder : List (String × String) → List (String × String)) (fuel : Nat) :
    ∀ (sel : Nat → Bool) (n : subscribeNode) (env : ExecEnv) (e : Option String)
      (n1 : subscribeNode) (env1 : ExecEnv),
      waitLoop ie rangeOrder fuel sel n env = .ret false e n1 env1 →
      n1 = n ∧ n1.currentRows = n.currentRows ∧ n1.currentIdx = n.currentIdx ∧
        ((e = env.ctxErr ∧ e.isSome = true) ∨
          ∃ pre req, env1.log = pre ++ [req] ∧ (ie pre req).err = e ∧ e.isSome = true) := by
  induction fuel with
  | zero =>
    intro sel n env e n1 env1 h
    rw [waitLoop] at h
    exact absurd h (by simp)
  | succ fuel ih =>
    intro sel n env e n1 env1 h
    cases hrecv : env.chan.recv with
    | none =>
      rw [waitLoop] at h
      simp only [hrecv] at h
      cases hc : env.ctxErr with
      | none =>
        rw [hc] at h
        exact absurd h (by simp)
      | some e0 =>
        rw [hc] at h
        simp only [NextResult.ret.injEq, true_and] at h
        obtain ⟨h1, h2, _⟩ := h
        subst h1 h2
        exact ⟨rfl, rfl, rfl, Or.inl ⟨rfl, rfl⟩⟩
    | some p =>
      obtain ⟨event, ch⟩ := p
      cases hsel : (env.ctxErr.isSome && sel 0) with
      | true =>
        rw [waitLoop] at h
        simp only [hrecv, hsel, if_true, NextResult.ret.injEq, true_and] at h
        obtain ⟨h1, h2, _⟩ := h
        subst h1 h2
        refine ⟨rfl, rfl, rfl, Or.inl ⟨rfl, ?_⟩⟩
        rw [Bool.and_eq_true] at hsel
        exact hsel.1
      | false =>
        rw [waitLoop_event ie rangeOrder fuel sel n env event ch hrecv hsel] at h
        cases herr : (ie env.log (refreshRequest rangeOrder n event)).err with
        | some err =>
          rw [herr] at h
          simp only [NextResult.ret.injEq, true_and] at h
          obtain ⟨h1, h2, h3⟩ := h
          subst h1 h2 h3
          exact ⟨rfl, rfl, rfl, Or.inr ⟨env.log, refreshRequest rangeOrder n event, rfl, herr, rfl⟩⟩
        | none =>
          rw [herr] at h
          simp only at h
          split at h
          · exact absurd h (by simp)
          · obtain ⟨h1, h2, h3, h4⟩ := ih _ _ _ _ _ _ h
            refine ⟨h1, h2, h3, ?_⟩
            rcases h4 with h4 | h4
            · exact Or.inl h4
            · exact Or.inr h4

/-- C11: when `Next`, its buffered rows exhausted, receives an event and the executor
answers the refresh with an error, `Next` returns `(false, err)` with exactly that error;
the node is unchanged (so are `currentRows` and `currentIdx`); exactly one request was
added to the executor log and only the received event left the queue, the events behind
it staying queued. More generally, whenever the wait loop returns `false` the node is
unchanged, and the error it returns is the context's error or the error of the last
request submitted. -/
theorem Next_refresh_error (ie : Executor)
    (rangeOrder : List (String × String) → List (String × String)) (fuel : Nat)
    (sel : Nat → Bool) (n : subscribeNode) (env : ExecEnv) (event : TableChangeEvent)
    (ch : Chan) (err : String)
    (hidx : ¬ n.currentIdx < n.currentRows.length)
    (hrecv : env.chan.recv = some (event, ch))
    (hsel : (env.ctxErr.isSome && sel 0) = false)
    (herr : (ie env.log (refreshRequest rangeOrder n event)).err = some err) :
    subscribeNode.Next ie rangeOrder (fuel + 1) sel n env =
      .ret false (some err) n
        { env with chan := ch, log := env.log ++ [refreshRequest rangeOrder n event] } ∧
    (∀ ev0 rest, env.chan.buf = ev0 :: rest → ch.buf = rest) ∧
    (∀ (fuel2 : Nat) (sel2 : Nat → Bool) (n2 : subscribeNode) (env2 : ExecEnv)
      (e : Option String) (n3 : subscribeNode) (env3 : ExecEnv),
      waitLoop ie rangeOrder fuel2 sel2 n2 env2 = .ret false e n3 env3 →
      n3 = n2 ∧ n3.currentRows = n2.currentRows ∧ n3.currentIdx = n2.currentIdx ∧
        ((e = env2.ctxErr ∧ e.isSome = true) ∨
          ∃ pre req, env3.log = pre ++ [req] ∧ (ie pre req).err = e ∧ e.isSome = true)) := by
  refine ⟨?_, ?_, waitLoop_false ie rangeOrder⟩
  · unfold subscribeNode.Next
    rw [if_neg hidx, waitLoop_event ie rangeOrder fuel sel n env event ch hrecv hsel, herr]
  · intro ev0 rest hb
    exact (recv_buf_tail _ _ _ _ _ hrecv hb).2

/-- Witness for C11: the waiting node has two events queued and the executor fails. -/
theorem Next_refresh_error_witness :
    (¬ waitingNode.currentIdx < waitingNode.currentRows.length) ∧
    (subscribeNode.Next (failingExecutor "boom") (fun kvs => kvs) (0 + 1) (fun _ => false)
        waitingNode
        { chan := { buf := [keyedEvent "1", keyedEvent "2"], cap := chanBufferSize,
                    closed := false },
          ctxErr := none, log := [] } =
      .ret false (some "boom") waitingNode
        { ({ chan := { buf := [keyedEvent "1", keyedEvent "2"], cap := chanBufferSize,
                       closed := false },
             ctxErr := none, log := [] } : ExecEnv) with
          chan := { buf := [keyedEvent "2"], cap := chanBufferSize, closed := false },
          log := ([] : List ExecRequest) ++
            [refreshRequest (fun kvs => kvs) waitingNode (keyedEvent "1")] } ∧
    (∀ ev0 rest,
      ({ chan := { buf := [keyedEvent "1", keyedEvent "2"], cap := chanBufferSize,
                   closed := false },
         ctxErr := none, log := [] } : ExecEnv).chan.buf = ev0 :: rest →
      ({ buf := [keyedEvent "2"], cap := chanBufferSize, closed := false } : Chan).buf = rest) ∧
    (∀ (fuel2 : Nat) (sel2 : Nat → Bool) (n2 : subscribeNode) (env2 : ExecEnv)
      (e : Option String) (n3 : subscribeNode) (env3 : ExecEnv),
      waitLoop (failingExecutor "boom") (fun kvs => kvs) fuel2 sel2 n2 env2 =
        .ret false e n3 env3 →
      n3 = n2 ∧ n3.currentRows = n2.currentRows ∧ n3.currentIdx = n2.currentIdx ∧
        ((e = env2.ctxErr ∧ e.isSome = true) ∨
          ∃ pre req, env3.log = pre ++ [req] ∧
            (failingExecutor "boom" pre req).err = e ∧ e.isSome = true))) :=
  ⟨by decide,
   Next_refresh_error (failingExecutor "boom") (fun kvs => kvs) 0 (fun _ => false) waitingNode
     { chan := { buf := [keyedEvent "1", keyedEvent "2"], cap := chanBufferSize,
                 closed := false },
       ctxErr := none, log := [] }
     (keyedEvent "1") { buf := [keyedEvent "2"], cap := chanBufferSize, closed := false }
     "boom" (by decide) (by decide) (by decide) rfl⟩

/-- C13: for every node with no unread buffered rows whose event queue is empty (and not
closed), once the context is cancelled `Next` returns `(false, ctx.Err())` and leaves the
node (`currentRows`, `currentIdx`) and the environment as they were: no request is added
to the executor log. -/
theorem Next_cancelled (ie : Executor)
    (rangeOrder : List (String × String) → List (String × String)) (fuel : Nat)
    (sel : Nat → Bool) (n : subscribeNode) (env : ExecEnv) (e : String)
    (hidx : ¬ n.currentIdx < n.currentRows.length)
    (hbuf : env.chan.buf = []) (hopen : env.chan.closed = false)
    (hctx : env.ctxErr = some e) :
    subscribeNode.Next ie rangeOrder (fuel + 1) sel n env = .ret false (some e) n env := by
  unfold subscribeNode.Next
  rw [if_neg hidx, waitLoop]
  simp only [recv_none_of_empty_open env.chan hbuf hopen, hctx]

/-- Witness for C13: the waiting node, an empty queue and a cancelled context. -/
theorem Next_cancelled_witness :
    (¬ waitingNode.currentIdx < waitingNode.currentRows.length) ∧
    subscribeNode.Next (constExecutor []) (fun kvs => kvs) (0 + 1) (fun _ => true) waitingNode
        { chan := makeChan chanBufferSize, ctxErr := some "context canceled", log := [] } =
      .ret false (some "context canceled") waitingNode
        { chan := makeChan chanBufferSize, ctxErr := some "context canceled", log := [] } :=
  ⟨by decide,
   Next_cancelled (constExecutor []) (fun kvs => kvs) 0 (fun _ => true) waitingNode
     { chan := makeChan chanBufferSize, ctxErr := some "context canceled", log := [] }
     "context canceled" (by decide) rfl rfl rfl⟩

theorem refreshQuery_of_key (rangeOrder : List (String × String) → List (String × String))
    (q : String) (event : TableChangeEvent) (kvs : List (String × String))
    (hkey : event.PrimaryKey = some kvs) (hne : kvs ≠ []) :
    refreshQuery rangeOrder q event =
      "WITH base AS (" ++ q ++ ") SELECT * FROM base WHERE " ++
        String.intercalate " AND " ((rangeOrder kvs).map keyCondition) := by
  have hlen : kvs.length > 0 := List.length_pos.mpr hne
  unfold refreshQuery
  simp only [hkey, hlen, if_true]
  rfl

/-- C20 (as amended): for every change event with a non-empty key that `Next` receives
once the buffered rows are exhausted, the text submitted is
`WITH base AS (<queryString>) SELECT * FROM base WHERE ` followed by the conditions
joined by ` AND `; the conditions are exactly one equality `base.<column> = <value>` per
key entry and nothing else, listed in the order in which the runtime iterates the key
map. For a key with one column the text does not depend on that order, so it is a
function of the statement and the key alone. -/
theorem Next_filter_conditions (ie : Executor)
    (rangeOrder : List (String × String) → List (String × String)) (fuel : Nat)
    (sel : Nat → Bool) (n : subscribeNode) (env : ExecEnv) (event : TableChangeEvent)
    (ch : Chan) (kvs : List (String × String))
    (hidx : ¬ n.currentIdx < n.currentRows.length)
    (hrecv : env.chan.recv = some (event, ch))
    (hsel : (env.ctxErr.isSome && sel 0) = false)
    (hkey : event.PrimaryKey = some kvs) (hne : kvs ≠ [])
    (hperm : (rangeOrder kvs).Perm kvs) :
    (∃ rest, (subscribeNode.Next ie rangeOrder (fuel + 1) sel n env).env.log =
      env.log ++
        { opName := "subscribe-refresh", user := n.user, database := n.dbName,
          stmt := "WITH base AS (" ++ n.queryString ++ ") SELECT * FROM base WHERE " ++
            String.intercalate " AND " ((rangeOrder kvs).map keyCondition),
          qargs := [] } :: rest) ∧
    ((rangeOrder kvs).map keyCondition).Perm (kvs.map keyCondition) ∧
    ((rangeOrder kvs).map keyCondition).length = kvs.length ∧
    (kvs.length = 1 →
      ∀ rangeOrder2 : List (String × String) → List (String × String),
        (rangeOrder2 kvs).Perm kvs →
        refreshQuery rangeOrder2 n.queryString event =
          refreshQuery rangeOrder n.queryString event) := by
  refine ⟨?_, hperm.map keyCondition, ?_, ?_⟩
  · obtain ⟨rest, hrest⟩ := Next_first_request ie rangeOrder fuel sel n env event ch hidx hrecv hsel
    refine ⟨rest, ?_⟩
    rw [hrest]
    simp only [refreshRequest, refreshQuery_of_key rangeOrder _ event kvs hkey hne]
  · rw [List.length_map]
    exact hperm.length_eq
  · intro h1 rangeOrder2 hperm2
    obtain ⟨a, ha⟩ := List.length_eq_one.mp h1
    have e1 : rangeOrder kvs = [a] := by
      rw [ha] at hperm
      rw [ha]
      exact List.perm_singleton.mp hperm
    have e2 : rangeOrder2 kvs = [a] := by
      rw [ha] at hperm2
      rw [ha]
      exact List.perm_singleton.mp hperm2
    rw [refreshQuery_of_key rangeOrder2 _ event kvs hkey hne,
      refreshQuery_of_key rangeOrder _ event kvs hkey hne, e1, e2]

/-- Witness for C20 (as amended): the waiting node receives the event with key `{id: 7}`. -/
theorem Next_filter_conditions_witness :
    (¬ waitingNode.currentIdx < waitingNode.currentRows.length) ∧
    (envWith (keyedEvent "7")).chan.recv =
      some (keyedEvent "7", { buf := [], cap := chanBufferSize, closed := false }) ∧
    (((fun kvs => kvs) [("id", "7")] : List (String × String)).Perm [("id", "7")]) ∧
    ((∃ rest, (subscribeNode.Next (constExecutor []) (fun kvs => kvs) (0 + 1) (fun _ => false)
        waitingNode (envWith (keyedEvent "7"))).env.log =
      (envWith (keyedEvent "7")).log ++
        { opName := "subscribe-refresh", user := waitingNode.user,
          database := waitingNode.dbName,
          stmt := "WITH base AS (" ++ waitingNode.queryString ++
            ") SELECT * FROM base WHERE " ++
            String.intercalate " AND " (((fun kvs => kvs) [("id", "7")]).map keyCondition),
          qargs := [] } :: rest) ∧
    (((fun kvs => kvs) [("id", "7")]).map keyCondition).Perm ([("id", "7")].map keyCondition) ∧
    (((fun kvs => kvs) [("id", "7")]).map keyCondition).length = [("id", "7")].length ∧
    ([("id", "7")].length = 1 →
      ∀ rangeOrder2 : List (String × String) → List (String × String),
        (rangeOrder2 [("id", "7")]).Perm [("id", "7")] →
        refreshQuery rangeOrder2 waitingNode.queryString (keyedEvent "7") =
          refreshQuery (fun kvs => kvs) waitingNode.queryString (keyedEvent "7"))) :=
  ⟨by decide, by decide, List.Perm.refl _,
   Next_filter_conditions (constExecutor []) (fun kvs => kvs) 0 (fun _ => false)
     waitingNode (envWith (keyedEvent "7")) (keyedEvent "7")
     { buf := [], cap := chanBufferSize, closed := false } [("id", "7")]
     (by decide) (by decide) (by decide) rfl (by decide) (List.Perm.refl _)⟩

/-- Counterexample to C20 as stated: for the key `{a: 1, b: 2}` the iteration orders
`a, b` and `b, a` are both orders in which the runtime may visit the map, and the two
refresh texts they produce for the same statement and the same key differ. -/
theorem refresh_text_depends_on_map_order :
    ((fun kvs => kvs) [("a", "1"), ("b", "2")] : List (String × String)).Perm
      [("a", "1"), ("b", "2")] ∧
    (List.reverse [("a", "1"), ("b", "2")] : List (String × String)).Perm
      [("a", "1"), ("b", "2")] ∧
    refreshQuery (fun kvs => kvs) "SELECT * FROM accounts"
        (TableChangeEvent.mk "accounts" "update" (some [("a", "1"), ("b", "2")])) =
      "WITH base AS (SELECT * FROM accounts) SELECT * FROM base WHERE base.a = 1 AND base.b = 2" ∧
    refreshQuery List.reverse "SELECT * FROM accounts"
        (TableChangeEvent.mk "accounts" "update" (some [("a", "1"), ("b", "2")])) =
      "WITH base AS (SELECT * FROM accounts) SELECT * FROM base WHERE base.b = 2 AND base.a = 1" ∧
    refreshQuery (fun kvs => kvs) "SELECT * FROM accounts"
        (TableChangeEvent.mk "accounts" "update" (some [("a", "1"), ("b", "2")])) ≠
      refreshQuery List.reverse "SELECT * FROM accounts"
        (TableChangeEvent.mk "accounts" "update" (some [("a", "1"), ("b", "2")])) := by
  refine ⟨List.Perm.refl _, List.reverse_perm _, by decide, by decide, by decide⟩

/-! ## Table name extraction -/

theorem extractTableName_test_table :
    extractTableName "SELECT * FROM test" = "test" ∧
    extractTableName "SELECT id FROM users" = "users" ∧
    extractTableName "SELECT * FROM my_table WHERE id = 1" = "my_table" ∧
    extractTableName "select * from TEST" = "test" ∧
    extractTableName "SELECT * FROM" = "" ∧
    extractTableName "SELECT * FROM Test" = "test" := by
  decide

/-- Counterexample to C12 as stated: the initial query of
`SUBSCRIBE TO SELECT * FROM accounts` fails with error `boom`; `planner.Subscribe` returns
a nil error and a node, and the node's channel (handle 0) is left registered with the
emitter for table `accounts`. -/
theorem Subscribe_init_failure_keeps_queue :
    ((failingExecutor "boom") [] (initRequest plannerWithEmitter "SELECT * FROM accounts")).err =
      some "boom" ∧
    (plannerWithEmitter.Subscribe (failingExecutor "boom") [] "SELECT * FROM accounts").1.2 =
      none ∧
    (plannerWithEmitter.Subscribe (failingExecutor "boom") [] "SELECT * FROM accounts").1.1 =
      { columns := placeholderColumns, currentRows := [], currentIdx := 0,
        queryString := "SELECT * FROM accounts", tableName := "accounts",
        dbName := "defaultdb", user := "root", eventChan := 0 } ∧
    (plannerWithEmitter.Subscribe (failingExecutor "boom") []
      "SELECT * FROM accounts").2.1.listeners "accounts" = [0] := by
  decide

/-- C19 (the code at the failing input): no emitter is configured and the query is
`SELECT * FROM accounts`. `planner.Subscribe` returns a node whose table name is
`accounts`; `Close` on it passes the guard and dereferences the nil emitter, so it
panics. With an emitter configured the same `Close` returns and leaves no channel
registered for `accounts`. -/
theorem Close_panics_without_emitter :
    (plannerWithoutEmitter.Subscribe (constExecutor []) [] "SELECT * FROM accounts").1.1.tableName
      = "accounts" ∧
    (plannerWithoutEmitter.Subscribe (constExecutor []) [] "SELECT * FROM accounts").2.1.EventEmitter.isNone
      = true ∧
    panicked
      ((plannerWithoutEmitter.Subscribe (constExecutor []) []
          "SELECT * FROM accounts").1.1.Close
        (plannerWithoutEmitter.Subscribe (constExecutor []) []
          "SELECT * FROM accounts").2.1) = true ∧
    (plannerWithoutEmitter.Subscribe (constExecutor []) []
        "SELECT * FROM accounts").1.1.Close
      (plannerWithoutEmitter.Subscribe (constExecutor []) []
        "SELECT * FROM accounts").2.1 =
      .error "invalid memory address or nil pointer dereference" ∧
    panicked
      ((plannerWithEmitter.Subscribe (constExecutor []) []
          "SELECT * FROM accounts").1.1.Close
        (plannerWithEmitter.Subscribe (constExecutor []) []
          "SELECT * FROM accounts").2.1) = false := by
  refine ⟨by decide, by decide, by decide, by rfl, by decide⟩

/-- C12 (as amended): when the initial query executed by `planner.Subscribe` fails, the
error is not returned and the subscription is not ended: `Subscribe` returns a nil error
and a node whose columns are the placeholder column, whose rows are the rows the
executor returned with the error, and whose cursor is 0. When an emitter is configured
and a table name was extracted, the node's queue is registered with the emitter for that
table; when no table name was extracted, no queue is registered for any table. -/
theorem Subscribe_ignores_init_error (p : planner) (ie : Executor) (log : List ExecRequest)
    (queryStr err : String) (herr : (ie log (initRequest p queryStr)).err = some err) :
    (p.Subscribe ie log queryStr).1.2 = none ∧
    (p.Subscribe ie log queryStr).1.1.columns = placeholderColumns ∧
    (p.Subscribe ie log queryStr).1.1.currentRows = (ie log (initRequest p queryStr)).rows ∧
    (p.Subscribe ie log queryStr).1.1.currentIdx = 0 ∧
    (p.Subscribe ie log queryStr).2.2 = log ++ [initRequest p queryStr] ∧
    (∀ e, p.EventEmitter = some e → stringsToLower (extractTableName queryStr) ≠ "" →
      (p.Subscribe ie log queryStr).1.1.eventChan ∈
        (p.Subscribe ie log queryStr).2.1.listeners
          (stringsToLower (extractTableName queryStr))) ∧
    (stringsToLower (extractTableName queryStr) = "" →
      ∀ t, (p.Subscribe ie log queryStr).2.1.listeners t = p.listeners t) := by
  refine ⟨rfl, ?_, rfl, rfl, rfl, ?_, ?_⟩
  · unfold planner.Subscribe
    simp only [herr]
  · intro e he hne
    unfold planner.Subscribe planner.listeners
    simp only [he, hne, ne_eq, not_false_eq_true, if_true]
    exact (mem_listeners_Subscribe e _ _ _).mpr (Or.inr ⟨rfl, rfl⟩)
  · intro ht t
    unfold planner.Subscribe planner.listeners
    cases he : p.EventEmitter with
    | none => rfl
    | some e => simp only [ht, ne_eq, not_true_eq_false, if_false]

/-- Witness for C12 (as amended): the initial query of a subscription on `accounts`
fails with `boom` while an emitter is configured. -/
theorem Subscribe_ignores_init_error_witness :
    ((failingExecutor "boom") [] (initRequest plannerWithEmitter "SELECT * FROM accounts")).err =
      some "boom" ∧
    ((plannerWithEmitter.Subscribe (failingExecutor "boom") [] "SELECT * FROM accounts").1.2 =
      none ∧
    (plannerWithEmitter.Subscribe (failingExecutor "boom") []
      "SELECT * FROM accounts").1.1.columns = placeholderColumns ∧
    (plannerWithEmitter.Subscribe (failingExecutor "boom") []
      "SELECT * FROM accounts").1.1.currentRows =
      ((failingExecutor "boom") []
        (initRequest plannerWithEmitter "SELECT * FROM accounts")).rows ∧
    (plannerWithEmitter.Subscribe (failingExecutor "boom") []
      "SELECT * FROM accounts").1.1.currentIdx = 0 ∧
    (plannerWithEmitter.Subscribe (failingExecutor "boom") []
      "SELECT * FROM accounts").2.2 =
      [] ++ [initRequest plannerWithEmitter "SELECT * FROM accounts"] ∧
    (∀ e, plannerWithEmitter.EventEmitter = some e →
      stringsToLower (extractTableName "SELECT * FROM accounts") ≠ "" →
      (plannerWithEmitter.Subscribe (failingExecutor "boom") []
          "SELECT * FROM accounts").1.1.eventChan ∈
        (plannerWithEmitter.Subscribe (failingExecutor "boom") []
          "SELECT * FROM accounts").2.1.listeners
          (stringsToLower (extractTableName "SELECT * FROM accounts"))) ∧
    (stringsToLower (extractTableName "SELECT * FROM accounts") = "" →
      ∀ t, (plannerWithEmitter.Subscribe (failingExecutor "boom") []
        "SELECT * FROM accounts").2.1.listeners t = plannerWithEmitter.listeners t)) :=
  ⟨rfl, Subscribe_ignores_init_error plannerWithEmitter (failingExecutor "boom") []
    "SELECT * FROM accounts" "boom" rfl⟩

theorem Close_ok_with_emitter (p : planner) (ie : Executor) (log : List ExecRequest)
    (queryStr : String) (e : EventEmitter) (he : p.EventEmitter = some e) (hwf : e.WF) :
    ∃ p1, (p.Subscribe ie log queryStr).1.1.Close (p.Subscribe ie log queryStr).2.1 = .ok p1 ∧
      (∀ t, (p.Subscribe ie log queryStr).1.1.eventChan ∉ p1.listeners t) ∧
      (p.Subscribe ie log queryStr).1.1.Close p1 = .ok p1 := by
  by_cases ht : stringsToLower (extractTableName queryStr) = ""
  · have hnode : (p.Subscribe ie log queryStr).1.1.tableName = "" := ht
    have hch : (p.Subscribe ie log queryStr).1.1.eventChan = e.nextChan := by
      unfold planner.Subscribe
      simp only [he, ht, ne_eq, not_true_eq_false, if_false]
    have hl : ∀ t, (p.Subscribe ie log queryStr).2.1.listeners t = e.listeners t := by
      intro t
      unfold planner.Subscribe planner.listeners
      simp only [he, ht, ne_eq, not_true_eq_false, if_false]
    have hclose : ∀ p2 : planner, (p.Subscribe ie log queryStr).1.1.Close p2 = .ok p2 := by
      intro p2
      unfold subscribeNode.Close
      rw [hnode]
      simp
    refine ⟨_, hclose _, ?_, hclose _⟩
    intro t hm
    rw [hl t, hch] at hm
    have := hwf.fresh t _ hm
    omega
  · have hnode : (p.Subscribe ie log queryStr).1.1.tableName =
        stringsToLower (extractTableName queryStr) := rfl
    have hch : (p.Subscribe ie log queryStr).1.1.eventChan = e.nextChan := by
      unfold planner.Subscribe
      simp only [he, ht, ne_eq, not_false_eq_true, if_true]
      rfl
    have hem : (p.Subscribe ie log queryStr).2.1.EventEmitter =
        some (e.Subscribe (stringsToLower (extractTableName queryStr))).2 := by
      unfold planner.Subscribe
      simp only [he, ht, ne_eq, not_false_eq_true, if_true]
    have hwf1 := WF_Subscribe e hwf (stringsToLower (extractTableName queryStr))
    have hreg : e.nextChan ∈
        (e.Subscribe (stringsToLower (extractTableName queryStr))).2.listeners
          (stringsToLower (extractTableName queryStr)) :=
      (mem_listeners_Subscribe e _ _ _).mpr (Or.inr ⟨rfl, rfl⟩)
    obtain ⟨e2, hun, hwf2, _, hmem2, _⟩ :=
      WF_Unsubscribe _ hwf1 (stringsToLower (extractTableName queryStr)) e.nextChan
    have hgone : ∀ t, e.nextChan ∉ e2.listeners t := by
      intro t hm
      have h2 := (hmem2 t e.nextChan).mp hm
      exact h2.2 ⟨hwf1.uniq t _ _ h2.1 hreg, rfl⟩
    refine ⟨{ (p.Subscribe ie log queryStr).2.1 with EventEmitter := some e2 }, ?_, ?_, ?_⟩
    · unfold subscribeNode.Close
      rw [hnode, if_pos ht, hem, hch]
      simp only [hun]
    · intro t
      rw [hch]
      exact hgone t
    · unfold subscribeNode.Close
      rw [hnode, if_pos ht, hch]
      simp only [Unsubscribe_of_not_mem e2 _ _ (hgone _)]

/-! ## Cursor bounds -/

theorem waitLoop_true (ie : Executor)
    (rangeOrder : List (String × String) → List (String × String)) (fuel : Nat) :
    ∀ (sel : Nat → Bool) (n : subscribeNode) (env : ExecEnv) (e : Option String)
      (n1 : subscribeNode) (env1 : ExecEnv),
      waitLoop ie rangeOrder fuel sel n env = .ret true e n1 env1 →
      e = none ∧ n1.currentIdx = 1 ∧ n1.currentRows.length > 1 := by
  induction fuel with
  | zero =>
    intro sel n env e n1 env1 h
    rw [waitLoop] at h
    exact absurd h (by simp)
  | succ fuel ih =>
    intro sel n env e n1 env1 h
    cases hrecv : env.chan.recv with
    | none =>
      rw [waitLoop] at h
      simp only [hrecv] at h
      cases hc : env.ctxErr with
      | none =>
        rw [hc] at h
        exact absurd h (by simp)
      | some e0 =>
        rw [hc] at h
        simp at h
    | some p =>
      obtain ⟨event, ch⟩ := p
      cases hsel : (env.ctxErr.isSome && sel 0) with
      | true =>
        rw [waitLoop] at h
        simp [hrecv, hsel] at h
      | false =>
        rw [waitLoop_event ie rangeOrder fuel sel n env event ch hrecv hsel] at h
        cases herr : (ie env.log (refreshRequest rangeOrder n event)).err with
        | some err =>
          rw [herr] at h
          simp at h
        | none =>
          rw [herr] at h
          simp only at h
          split at h
          · rename_i hlen
            simp only [NextResult.ret.injEq, true_and] at h
            obtain ⟨h1, h2, _⟩ := h
            subst h1 h2
            exact ⟨rfl, rfl, hlen⟩
          · exact ih _ _ _ _ _ _ h

theorem waitLoop_node (ie : Executor)
    (rangeOrder : List (String × String) → List (String × String)) (fuel : Nat) :
    ∀ (sel : Nat → Bool) (n : subscribeNode) (env : ExecEnv),
      (waitLoop ie rangeOrder fuel sel n env).node = n ∨
        ((waitLoop ie rangeOrder fuel sel n env).node.currentIdx = 1 ∧
          (waitLoop ie rangeOrder fuel sel n env).node.currentRows.length > 1) := by
  induction fuel with
  | zero =>
    intro sel n env
    left
    rw [waitLoop]
    rfl
  | succ fuel ih =>
    intro sel n env
    cases hrecv : env.chan.recv with
    | none =>
      left
      rw [waitLoop]
      simp only [hrecv]
      cases env.ctxErr <;> rfl
    | some p =>
      obtain ⟨event, ch⟩ := p
      cases hsel : (env.ctxErr.isSome && sel 0) with
      | true =>
        left
        rw [waitLoop]
        simp only [hrecv, hsel, if_true]
        rfl
      | false =>
        rw [waitLoop_event ie rangeOrder fuel sel n env event ch hrecv hsel]
        cases herr : (ie env.log (refreshRequest rangeOrder n event)).err with
        | some err =>
          left
          rfl
        | none =>
          simp only
          split
          · rename_i hlen
            right
            exact ⟨rfl, hlen⟩
          · exact ih _ _ _

theorem callNext_bounds (n : subscribeNode) (c : NextCall)
    (h : 0 ≤ n.currentIdx ∧ n.currentIdx ≤ n.currentRows.length) :
    0 ≤ (n.callNext c).node.currentIdx ∧
      (n.callNext c).node.currentIdx ≤ (n.callNext c).node.currentRows.length := by
  unfold subscribeNode.callNext subscribeNode.Next
  split
  · rename_i hlt
    simp only [NextResult.node]
    omega
  · rcases waitLoop_node c.ie c.rangeOrder c.fuel c.sel n c.env with h1 | ⟨h1, h2⟩
    · rw [h1]
      exact h
    · rw [h1]
      omega

theorem afterCalls_bounds (calls : List NextCall) :
    ∀ (n : subscribeNode), (0 ≤ n.currentIdx ∧ n.currentIdx ≤ n.currentRows.length) →
      0 ≤ (n.afterCalls calls).currentIdx ∧
        (n.afterCalls calls).currentIdx ≤ (n.afterCalls calls).currentRows.length := by
  induction calls with
  | nil => exact fun n h => h
  | cons c cs ih =>
    intro n h
    rw [subscribeNode.afterCalls]
    exact ih _ (callNext_bounds n c h)

theorem callNext_true (n : subscribeNode) (c : NextCall) (e : Option String)
    (n1 : subscribeNode) (env1 : ExecEnv)
    (hb : 0 ≤ n.currentIdx ∧ n.currentIdx ≤ n.currentRows.length)
    (h : n.callNext c = .ret true e n1 env1) :
    e = none ∧ 0 < n1.currentIdx ∧ n1.currentIdx ≤ n1.currentRows.length := by
  unfold subscribeNode.callNext subscribeNode.Next at h
  split at h
  · rename_i hlt
    simp only [NextResult.ret.injEq, true_and] at h
    obtain ⟨h1, h2, _⟩ := h
    subst h1 h2
    refine ⟨rfl, ?_, ?_⟩
    · show 0 < n.currentIdx + 1
      omega
    · show n.currentIdx + 1 ≤ (n.currentRows.length : Int)
      omega
  · obtain ⟨h1, h2, h3⟩ := waitLoop_true _ _ _ _ _ _ _ _ _ h
    refine ⟨h1, ?_, ?_⟩ <;> omega

theorem Values_of_index (n : subscribeNode)
    (h : n.currentIdx > 0 ∧ n.currentIdx ≤ n.currentRows.length) :
    n.valuesIndex = some (n.currentIdx - 1).toNat ∧
      ∃ hlt : (n.currentIdx - 1).toNat < n.currentRows.length,
        n.Values = n.currentRows.get ⟨(n.currentIdx - 1).toNat, hlt⟩ := by
  unfold subscribeNode.valuesIndex subscribeNode.Values
  rw [if_pos h, dif_pos h]
  exact ⟨rfl, by omega, rfl⟩

theorem Values_of_zero (n : subscribeNode) (h : n.currentIdx = 0) :
    n.valuesIndex = none ∧ n.Values = [Datum.DNull] := by
  unfold subscribeNode.valuesIndex subscribeNode.Values
  have hn : ¬ (n.currentIdx > 0 ∧ n.currentIdx ≤ n.currentRows.length) := by omega
  rw [if_neg hn, dif_neg hn]
  exact ⟨rfl, rfl⟩

/-- C21: take the node that `planner.Subscribe` returns (any planner, executor and
statement, hence any initial batch) and any sequence of `Next` calls on it, each with
its own executor, event queue, context and scheduling choices. After every call the
cursor satisfies `0 <= currentIdx <= len(currentRows)`; `Values` takes the placeholder
return exactly when `currentIdx = 0`, and then returns the single NULL row; otherwise it
returns the row at `currentIdx - 1`, an index inside the batch. Whenever a further
`Next` call returns `true`, its error is nil, the cursor is at least 1 and `Values`
returns the row at `currentIdx - 1`. -/
theorem cursor_in_bounds (p : planner) (ie0 : Executor) (log : List ExecRequest)
    (queryStr : String) (calls : List NextCall) :
    0 ≤ ((p.Subscribe ie0 log queryStr).1.1.afterCalls calls).currentIdx ∧
    ((p.Subscribe ie0 log queryStr).1.1.afterCalls calls).currentIdx ≤
      ((p.Subscribe ie0 log queryStr).1.1.afterCalls calls).currentRows.length ∧
    (((p.Subscribe ie0 log queryStr).1.1.afterCalls calls).valuesIndex = none ↔
      ((p.Subscribe ie0 log queryStr).1.1.afterCalls calls).currentIdx = 0) ∧
    (((p.Subscribe ie0 log queryStr).1.1.afterCalls calls).currentIdx = 0 →
      ((p.Subscribe ie0 log queryStr).1.1.afterCalls calls).Values = [Datum.DNull]) ∧
    (((p.Subscribe ie0 log queryStr).1.1.afterCalls calls).currentIdx ≠ 0 →
      ∃ hlt : (((p.Subscribe ie0 log queryStr).1.1.afterCalls calls).currentIdx - 1).toNat <
          ((p.Subscribe ie0 log queryStr).1.1.afterCalls calls).currentRows.length,
        ((p.Subscribe ie0 log queryStr).1.1.afterCalls calls).Values =
          ((p.Subscribe ie0 log queryStr).1.1.afterCalls calls).currentRows.get
            ⟨(((p.Subscribe ie0 log queryStr).1.1.afterCalls calls).currentIdx - 1).toNat,
              hlt⟩) ∧
    (∀ (c : NextCall) (e : Option String) (n1 : subscribeNode) (env1 : ExecEnv),
      ((p.Subscribe ie0 log queryStr).1.1.afterCalls calls).callNext c = .ret true e n1 env1 →
      e = none ∧ 0 < n1.currentIdx ∧ n1.currentIdx ≤ n1.currentRows.length ∧
        n1.valuesIndex = some (n1.currentIdx - 1).toNat ∧
        ∃ hlt : (n1.currentIdx - 1).toNat < n1.currentRows.length,
          n1.Values = n1.currentRows.get ⟨(n1.currentIdx - 1).toNat, hlt⟩) := by
  have h0 : 0 ≤ (p.Subscribe ie0 log queryStr).1.1.currentIdx ∧
      (p.Subscribe ie0 log queryStr).1.1.currentIdx ≤
        (p.Subscribe ie0 log queryStr).1.1.currentRows.length := by
    have hz : (p.Subscribe ie0 log queryStr).1.1.currentIdx = 0 := rfl
    rw [hz]
    omega
  have hb := afterCalls_bounds calls _ h0
  generalize (p.Subscribe ie0 log queryStr).1.1.afterCalls calls = n at hb
  refine ⟨hb.1, hb.2, ?_, fun hz => (Values_of_zero n hz).2, ?_, ?_⟩
  · constructor
    · intro hn
      by_contra hne
      have hpos : n.currentIdx > 0 ∧ n.currentIdx ≤ n.currentRows.length := by omega
      rw [(Values_of_index n hpos).1] at hn
      exact absurd hn (by simp)
    · exact fun hz => (Values_of_zero n hz).1
  · intro hne
    have hpos : n.currentIdx > 0 ∧ n.currentIdx ≤ n.currentRows.length := by omega
    exact (Values_of_index n hpos).2
  · intro c e n1 env1 hret
    obtain ⟨h1, h2, h3⟩ := callNext_true n c e n1 env1 hb hret
    have hv := Values_of_index n1 ⟨h2, h3⟩
    exact ⟨h1, h2, h3, hv.1, hv.2⟩

theorem Values_null_batch_row :
    ({ waitingNode with currentRows := [[Datum.DNull]], currentIdx := 1 } :
      subscribeNode).valuesIndex = some 0 ∧
    ({ waitingNode with currentRows := [[Datum.DNull]], currentIdx := 1 } :
      subscribeNode).Values = [Datum.DNull] := by
  decide

end Reactive
